import Mathlib

/-!
# Verification of the quick-opts argument-parsing engine

Shallow embedding of the command-line option parser from `src/opt.h`
(the current single-header engine) together with the argument-consumption
loop of the earlier variant `src/opt.c`.

Modelling conventions:
* C strings are `List Char` (NUL-terminated byte strings; the terminator is
  implicit in the list's end).
* The caller's `struct optinfo` is carried functionally; the cursor
  `(argc, argv)` is modelled as a zipper: `rest` is the remaining vector
  (`argv[0..argc)`), `done` is the already-consumed prefix in reverse order
  (the tokens behind the `argv` pointer), so `arg_unget`'s pointer rewind is
  total on the states the engine actually reaches.
* User callbacks are pure functions stored in the structures; every
  invocation the engine performs is also recorded in a trace of `event`s so
  that theorems can speak about which callbacks ran, in which order, with
  which arguments.  The opaque user-data pointer is threaded unchanged by
  the C code and never inspected by the engine, so callbacks are modelled
  as closures and the pointer is omitted.
* `qsort(3)` is modelled by `List.insertionSort` with the `≤` relation
  induced by the C comparison functions (any sorted permutation is a
  faithful model of `qsort`'s contract), and `bsearch(3)` by the usual
  halving search `opt_bsearch` on the sorted buffer.
* Machine arithmetic: `int` values are `Int`, `unsigned` values are `Nat`;
  the cast `(unsigned)job->args` in `opt_call_back` is `opt_lim`, i.e.
  reduction modulo `2^32` (ILP32/LP64 `unsigned int`).
-/

/-- A C string (NUL terminator left implicit). -/
abbrev Str := List Char

/-- C `isgraph(3)`: printable and not a space, i.e. codes `0x21`–`0x7E`. -/
def isgraph (c : Char) : Bool := 0x21 ≤ c.toNat && c.toNat ≤ 0x7E

/-- C `isdigit(3)`: decimal digits `'0'`–`'9'`. -/
def isdigit (c : Char) : Bool := 0x30 ≤ c.toNat && c.toNat ≤ 0x39

/-- The three-way comparison `(a > b) - (a < b)` used by `optspec_shrtcmp`
(`src/opt.h` lines 270-277), on the numeric value of the compared chars. -/
def chrcmp (a b : Nat) : Ordering :=
  if a < b then .lt else if b < a then .gt else .eq

/-- C `strcmp(3)`, used by `optspec_lngcmp` (`src/opt.h` lines 281-288):
byte-wise three-way lexicographic comparison. -/
def strcmp : Str → Str → Ordering
  | [], [] => .eq
  | [], _ :: _ => .lt
  | _ :: _, [] => .gt
  | a :: as, b :: bs =>
    if a.toNat < b.toNat then .lt
    else if b.toNat < a.toNat then .gt
    else strcmp as bs

/-- `enum argtype` (`src/opt.h` lines 292-297). -/
inductive argtype where
  | ARG_TOKEN   /- Not an option -/
  | ARG_END     /- "--" to stop parsing options -/
  | ARG_SHORT   /- A short option string -/
  | ARG_LONG    /- A long option string -/
deriving DecidableEq, Repr

/-- `arg_classify` (`src/opt.h` lines 305-318): `arg[0] == '-'` and
`arg[1] == '-'` gives `LONG` when `arg[2]` is non-NUL, else `END`;
`arg[0] == '-'` with non-NUL `arg[1]` (not `'-'`) gives `SHORT`; everything
else is a plain token. -/
def arg_classify (arg : Str) : argtype :=
  match arg with
  | [] => .ARG_TOKEN
  | a0 :: rest0 =>
    if a0 = '-' then
      match rest0 with
      | [] => .ARG_TOKEN
      | a1 :: rest1 =>
        if a1 = '-' then
          if rest1.isEmpty then .ARG_END else .ARG_LONG
        else .ARG_SHORT
    else .ARG_TOKEN

/-- `enum optfst` (`src/opt.h` lines 120-123). -/
inductive optfst where
  | OPT_FIRST_SKIP
  | OPT_FIRST_PARSE
deriving DecidableEq, Repr

/-- `enum optend` (`src/opt.h` lines 127-130). -/
inductive optend where
  | OPT_END_ALLOW
  | OPT_END_DISALLOW
deriving DecidableEq, Repr

/-- `struct optspec` (`src/opt.h` lines 111-116).  `args` is a C `int`
(`-1` documented as "no limit"); `func` is the option callback
`optcbfn_t(int idx, unsigned count, char *args[], void *data)` with the
user-data pointer absorbed into the closure. -/
structure optspec where
  shrt : Char
  lng : Option Str
  args : Int
  func : Int → Nat → List Str → Int
deriving Inhabited

/-- `struct optinfo` (`src/opt.h` lines 134-144) together with the argv
cursor position.  `rest` models `(argc, argv)`; `done` records the tokens
behind the current `argv` pointer (most recent first) so that `arg_unget`
can rewind.  `errcb` is `opterrfn_t(type, shrt, lng, data)` and `poscb`
the positional `optcbfn_t(idx, count, args, data)`, both with the data
pointer absorbed into the closure. -/
structure optinfo where
  done : List Str
  rest : List Str
  fstact : optfst
  endact : optend
  errcb : Int → Char → Option Str → Int
  poscb : Int → Nat → List Str → Int

/-- `struct arg` (`src/opt.h` lines 322-325). -/
structure arg where
  str : Str
  type : argtype

/-- One recorded callback invocation: which user function the engine called,
with which arguments, and what it returned. -/
inductive event where
  | opt (idx : Int) (count : Nat) (args : List Str) (ret : Int)
  | err (type : Int) (shrt : Char) (lng : Option Str) (ret : Int)
  | pos (idx : Int) (count : Nat) (args : List Str) (ret : Int)
deriving DecidableEq, Repr

/-- The integer a recorded callback invocation returned. -/
def event.ret : event → Int
  | .opt _ _ _ r => r
  | .err _ _ _ r => r
  | .pos _ _ _ r => r

/-- `arg_get` (`src/opt.h` lines 337-347): fails when `argc` is zero,
otherwise reads and classifies `argv[0]` and advances the cursor. -/
def arg_get (info : optinfo) : Option (arg × optinfo) :=
  match info.rest with
  | [] => none
  | s :: rest' =>
    some ({ str := s, type := arg_classify s },
          { info with done := s :: info.done, rest := rest' })

/-- `arg_unget` (`src/opt.h` lines 356-360): rewind the cursor by one token
(`info->argc++; info->argv--`).  The engine only calls it right after a
successful `arg_get`, so `done` is never empty at a call site; the `[]`
case is unreachable. -/
def arg_unget (info : optinfo) : optinfo :=
  match info.done with
  | [] => info
  | s :: d => { info with done := d, rest := s :: info.rest }

/-- `struct opttbl` (`src/opt.h` lines 364-371).  The sorted buffers hold
indices into `opts`, modelling the C arrays of pointers into the original
table (`nshrt`/`nlng` are the buffer lengths). -/
structure opttbl where
  nopt : Nat
  opts : List optspec
  shrt : List Nat
  lng : List Nat

/-- `bsearch(3)` as called by `opt_find`: halving search on a sorted buffer
of indices; `cmp i` is the three-way comparison of the searched key against
the entry at buffer element `i` (`.lt` means the key orders before it). -/
def opt_bsearch (cmp : Nat → Ordering) (buf : List Nat) : Option Nat :=
  if h : buf.length = 0 then none
  else
    let i := buf.getD (buf.length / 2) 0
    match cmp i with
    | .eq => some i
    | .lt => opt_bsearch cmp (buf.take (buf.length / 2))
    | .gt => opt_bsearch cmp (buf.drop (buf.length / 2 + 1))
termination_by buf.length
decreasing_by
  · simp only [List.length_take]
    omega
  · simp only [List.length_drop]
    omega

/-- `opt_find` (`src/opt.h` lines 383-396): binary search in the long or
short sorted buffer, using the same comparison as construction.  The C key
is a stack `struct optspec` with only the searched field initialized; the
result is the table index the found pointer corresponds to. -/
def opt_find (tbl : opttbl) (key : optspec) (len : Bool) : Option Nat :=
  if len then
    opt_bsearch
      (fun i => strcmp (key.lng.getD []) (((tbl.opts.getD i default).lng).getD []))
      tbl.lng
  else
    opt_bsearch
      (fun i => chrcmp key.shrt.toNat (tbl.opts.getD i default).shrt.toNat)
      tbl.shrt

/-- `opt_valid_argument` (`src/opt.h` lines 409-423): a plain token always
qualifies; a SHORT token qualifies when its first character after the dash
is a decimal digit ("quick fix to allow negative numbers"); everything else
is rejected.  `info` and `tbl` are accepted and ignored exactly as in C. -/
def opt_valid_argument (info : optinfo) (tbl : opttbl) (a : arg) : Bool :=
  match a.type with
  | .ARG_TOKEN => true
  | .ARG_SHORT => isdigit (a.str.getD 1 default)
  | _ => false

/-- The cast `(unsigned)job->args` in `opt_call_back` (`src/opt.h` line
440): conversion of a C `int` to a 32-bit `unsigned`. -/
def opt_lim (args : Int) : Nat := (args % (2 ^ 32 : Int)).toNat

theorem arg_get_rest_length {info : optinfo} {a : arg} {info' : optinfo}
    (h : arg_get info = some (a, info')) :
    info'.rest.length + 1 = info.rest.length := by
  unfold arg_get at h
  cases hr : info.rest with
  | nil => rw [hr] at h; cases h
  | cons s r =>
    rw [hr] at h
    cases h
    simp [hr]

/-- The argument-collection loop of `opt_call_back` (`src/opt.h` lines
443-450): `for (i = 0; i < lim; i++)`, stop on cursor exhaustion, put the
first non-qualifying token back.  Returns the final `i` and cursor. -/
def opt_args_loop (tbl : opttbl) (lim : Nat) (info : optinfo) (i : Nat) :
    Nat × optinfo :=
  if i < lim then
    match h : arg_get info with
    | none => (i, info)
    | some (a, info') =>
      if opt_valid_argument info' tbl a then
        opt_args_loop tbl lim info' (i + 1)
      else
        (i, arg_unget info')
  else
    (i, info)
termination_by info.rest.length
decreasing_by
  have := arg_get_rest_length h
  omega

/-- The token-level qualification test the consumption loop of `opt.h`
applies: `opt_valid_argument` on the classified token. -/
def opt_arg_ok (info : optinfo) (tbl : opttbl) (s : Str) : Bool :=
  opt_valid_argument info tbl { str := s, type := arg_classify s }

/-- `opt_call_back` (`src/opt.h` lines 435-452): remember the argument
pointer, pull up to `(unsigned)job->args` qualifying tokens, then invoke
the option callback with the table index, the count and the saved pointer. -/
def opt_call_back (info : optinfo) (tbl : opttbl) (jobIdx : Nat) :
    Int × List event × optinfo :=
  let job := tbl.opts.getD jobIdx default
  let args := info.rest
  let lim := opt_lim job.args
  let p := opt_args_loop tbl lim info 0
  let r := job.func (jobIdx : Int) p.1 args
  (r, [event.opt (jobIdx : Int) p.1 args r], p.2)

/-- One pass of `opt_short`'s do-while body (`src/opt.h` lines 475-484)
for the cluster character `c`: look the character up; when found either
invoke the callback directly with zero arguments (`noargs`, i.e. the
character is part of a multi-character cluster) or dispatch with argument
consumption; when not found invoke `errcb(0, c, NULL, data)`. -/
def opt_short_step (info : optinfo) (tbl : opttbl) (noargs : Bool)
    (c : Char) : Int × List event × optinfo :=
  match opt_find tbl { (default : optspec) with shrt := c } false with
  | some idx =>
    if noargs then
      let r := (tbl.opts.getD idx default).func (idx : Int) 0 info.rest
      (r, [event.opt (idx : Int) 0 info.rest r], info)
    else
      opt_call_back info tbl idx
  | none =>
    let r := info.errcb 0 c none
    (r, [event.err 0 c none r], info)

/-- `opt_short`'s do-while loop (`src/opt.h` lines 474-485): process the
character `c`, then continue with the remaining characters `rest` while
`*++opt && !res`. -/
def opt_short_go (info : optinfo) (tbl : opttbl) (noargs : Bool)
    (c : Char) (rest : List Char) : Int × List event × optinfo :=
  let step := opt_short_step info tbl noargs c
  match rest with
  | [] => step
  | c' :: rest' =>
    if step.1 ≠ 0 then step
    else
      let next := opt_short_go step.2.2 tbl noargs c' rest'
      (next.1, step.2.1 ++ next.2.1, next.2.2)

/-- `opt_short` (`src/opt.h` lines 466-487): `noargs` is decided once from
`opt[1] != '\0'`; the cluster is scanned left to right.  A SHORT token
always has at least one character after the dash, so the `[]` case is
unreachable. -/
def opt_short (info : optinfo) (tbl : opttbl) (opt : Str) :
    Int × List event × optinfo :=
  match opt with
  | [] => (0, [], info)
  | c :: rest => opt_short_go info tbl (!rest.isEmpty) c rest

/-- `opt_long` (`src/opt.h` lines 501-517): single lookup, dispatch on
success, error callback `errcb(1, '\0', opt, data)` otherwise. -/
def opt_long (info : optinfo) (tbl : opttbl) (opt : Str) :
    Int × List event × optinfo :=
  match opt_find tbl { (default : optspec) with lng := some opt } true with
  | some idx => opt_call_back info tbl idx
  | none =>
    let r := info.errcb 1 '\x00' (some opt)
    (r, [event.err 1 '\x00' (some opt) r], info)

theorem arg_get_unget {info : optinfo} {a : arg} {info' : optinfo}
    (h : arg_get info = some (a, info')) : arg_unget info' = info := by
  cases info with
  | mk d rst f e ec pc =>
    cases rst with
    | nil => simp [arg_get] at h
    | cons s r =>
      simp only [arg_get, Option.some.injEq, Prod.mk.injEq] at h
      rw [← h.2]
      simp [arg_unget]

theorem opt_args_loop_rest_le (tbl : opttbl) (lim : Nat) (info : optinfo)
    (i : Nat) :
    (opt_args_loop tbl lim info i).2.rest.length ≤ info.rest.length := by
  induction info, i using opt_args_loop.induct tbl lim with
  | case1 info i hlt hget =>
    rw [opt_args_loop]
    rw [if_pos hlt]
    split
    · exact le_refl _
    · rename_i a info' heq
      rw [hget] at heq
      simp at heq
  | case2 info i hlt a info' hget hvalid ih =>
    rw [opt_args_loop]
    rw [if_pos hlt]
    split
    · rename_i heq
      rw [hget] at heq
    · rename_i a2 info2 heq
      rw [hget] at heq
      cases heq
      rw [if_pos hvalid]
      have h1 := arg_get_rest_length hget
      omega
  | case3 info i hlt a info' hget hvalid =>
    rw [opt_args_loop]
    rw [if_pos hlt]
    split
    · rename_i heq
      rw [hget] at heq
    · rename_i a2 info2 heq
      rw [hget] at heq
      cases heq
      rw [if_neg hvalid]
      rw [show (i, arg_unget info').2 = arg_unget info' from rfl]
      rw [arg_get_unget hget]
  | case4 info i hlt =>
    rw [opt_args_loop]
    rw [if_neg hlt]

theorem opt_call_back_rest_le (info : optinfo) (tbl : opttbl) (jobIdx : Nat) :
    (opt_call_back info tbl jobIdx).2.2.rest.length ≤ info.rest.length := by
  simp only [opt_call_back]
  exact opt_args_loop_rest_le ..

theorem opt_short_step_rest_le (info : optinfo) (tbl : opttbl)
    (noargs : Bool) (c : Char) :
    (opt_short_step info tbl noargs c).2.2.rest.length ≤ info.rest.length := by
  rw [opt_short_step]
  cases opt_find tbl { (default : optspec) with shrt := c } false with
  | none => simp
  | some idx =>
    cases noargs with
    | false => simpa using opt_call_back_rest_le info tbl idx
    | true => simp

theorem opt_short_go_rest_le (info : optinfo) (tbl : opttbl) (noargs : Bool)
    (c : Char) (rest : List Char) :
    (opt_short_go info tbl noargs c rest).2.2.rest.length ≤
      info.rest.length := by
  induction rest generalizing info c with
  | nil =>
    rw [opt_short_go]
    exact opt_short_step_rest_le ..
  | cons c' rest' ih =>
    simp only [opt_short_go]
    split
    · exact opt_short_step_rest_le ..
    · exact le_trans (ih _ _) (opt_short_step_rest_le ..)

theorem opt_short_rest_le (info : optinfo) (tbl : opttbl) (opt : Str) :
    (opt_short info tbl opt).2.2.rest.length ≤ info.rest.length := by
  cases opt with
  | nil => simp [opt_short]
  | cons c rest =>
    rw [opt_short]
    exact opt_short_go_rest_le ..

theorem opt_long_rest_le (info : optinfo) (tbl : opttbl) (opt : Str) :
    (opt_long info tbl opt).2.2.rest.length ≤ info.rest.length := by
  rw [opt_long]
  cases opt_find tbl { (default : optspec) with lng := some opt } true with
  | none => simp
  | some idx => simpa using opt_call_back_rest_le info tbl idx

/-- The `while (arg_get(info, &arg) && !res)` loop of `opt_read`
(`src/opt.h` lines 532-546), entered with the running result `res`.  Note
that the loop header's `arg_get` runs before `!res` is tested, so when a
callback has signalled termination one further token is still taken from
the cursor before the loop exits. -/
def opt_read_loop (info : optinfo) (tbl : opttbl) (res : Int) :
    Int × List event × optinfo :=
  match hget : arg_get info with
  | none => (res, [], info)
  | some (a, info') =>
    if res ≠ 0 then (res, [], info')
    else
      match a.type with
      | .ARG_TOKEN =>
        let info'' := arg_unget info'
        let r := info''.poscb (-1) info''.rest.length info''.rest
        (r, [event.pos (-1) info''.rest.length info''.rest r], info'')
      | .ARG_END =>
        let r := info'.poscb (-1) info'.rest.length info'.rest
        (r, [event.pos (-1) info'.rest.length info'.rest r], info')
      | .ARG_SHORT =>
        let p := opt_short info' tbl (a.str.drop 1)
        let next := opt_read_loop p.2.2 tbl p.1
        (next.1, p.2.1 ++ next.2.1, next.2.2)
      | .ARG_LONG =>
        let p := opt_long info' tbl (a.str.drop 2)
        let next := opt_read_loop p.2.2 tbl p.1
        (next.1, p.2.1 ++ next.2.1, next.2.2)
termination_by info.rest.length
decreasing_by
  · have h1 := arg_get_rest_length hget
    have h2 := opt_short_rest_le info' tbl (a.str.drop 1)
    omega
  · have h1 := arg_get_rest_length hget
    have h2 := opt_long_rest_le info' tbl (a.str.drop 2)
    omega

/-- `opt_read` (`src/opt.h` lines 527-548): drive the loop with `res`
initially zero. -/
def opt_read (info : optinfo) (tbl : opttbl) : Int × List event × optinfo :=
  opt_read_loop info tbl 0

/-- `opt_first` (`src/opt.h` lines 555-569): under `OPT_FIRST_SKIP` consume
one token unconditionally (result discarded); always returns zero. -/
def opt_first (info : optinfo) : Int × optinfo :=
  match info.fstact with
  | .OPT_FIRST_SKIP =>
    match arg_get info with
    | some (_, info') => (0, info')
    | none => (0, info)
  | .OPT_FIRST_PARSE => (0, info)

/-- The `≤` order `optspec_shrtcmp` induces on table indices. -/
abbrev shrt_le (opts : List optspec) (i j : Nat) : Prop :=
  chrcmp (opts.getD i default).shrt.toNat
    (opts.getD j default).shrt.toNat ≠ .gt

/-- The `≤` order `optspec_lngcmp` induces on table indices. -/
abbrev lng_le (opts : List optspec) (i j : Nat) : Prop :=
  strcmp ((opts.getD i default).lng.getD [])
    ((opts.getD j default).lng.getD []) ≠ .gt

/-- The short-buffer filter test of `opt_parse`: `isgraph(opts[i].shrt)`. -/
def shrt_usable (opts : List optspec) (i : Nat) : Bool :=
  isgraph (opts.getD i default).shrt

/-- The long-buffer filter test of `opt_parse`:
`opts[i].lng && *opts[i].lng`. -/
def lng_usable (opts : List optspec) (i : Nat) : Bool :=
  match (opts.getD i default).lng with
  | some l => !l.isEmpty
  | none => false

/-- The index-building prologue of `opt_parse` (`src/opt.h` lines 603-616):
filter the first `nopt` table slots into the short buffer (short character
passes `isgraph`) and the long buffer (long name non-NULL and non-empty),
then sort each buffer with its comparison function.  `qsort(3)` is modelled
by insertion sort with the `≤` relation the C comparators induce. -/
def opt_build (nopt : Nat) (opts : List optspec) : opttbl :=
  { nopt := nopt
    opts := opts
    shrt := List.insertionSort (shrt_le opts)
      ((List.range nopt).filter (shrt_usable opts))
    lng := List.insertionSort (lng_le opts)
      ((List.range nopt).filter (lng_usable opts)) }

/-- `opt_parse` (`src/opt.h` lines 584-619), in the alloca configuration
(buffers exactly `nopt` entries, no clamping): build the index, handle the
first argument, then read the vector. -/
def opt_parse (info : optinfo) (nopt : Nat) (opts : List optspec) :
    Int × List event × optinfo :=
  let tbl := opt_build nopt opts
  let p := opt_first info
  if p.1 ≠ 0 then (p.1, [], p.2) else opt_read p.2 tbl

/-- The argument-collection loop of the earlier variant's `opt_call_back`
(`src/opt.c` lines 110-117): identical to `opt_args_loop` except that the
acceptance test is `arg.type != ARG_TOKEN` — every dash-prefixed token is
rejected. -/
def optC_args_loop (lim : Nat) (info : optinfo) (i : Nat) : Nat × optinfo :=
  if i < lim then
    match h : arg_get info with
    | none => (i, info)
    | some (a, info') =>
      if a.type = .ARG_TOKEN then
        optC_args_loop lim info' (i + 1)
      else
        (i, arg_unget info')
  else
    (i, info)
termination_by info.rest.length
decreasing_by
  have := arg_get_rest_length h
  omega

/-- The token-level qualification test the consumption loop of `opt.c`
applies: the classified token must be a plain token. -/
def optC_arg_ok (s : Str) : Bool := arg_classify s = .ARG_TOKEN

theorem opt_arg_ok_irrel (info info' : optinfo) (tbl tbl' : opttbl) :
    opt_arg_ok info tbl = opt_arg_ok info' tbl' := rfl

/-- Characterization of the `opt.c` consumption loop: identical to
`opt_args_loop_spec` with the plain-token acceptance test. -/
theorem optC_args_loop_spec (lim : Nat) (info : optinfo) (i : Nat) :
    optC_args_loop lim info i =
      (i + min (lim - i) ((info.rest.takeWhile optC_arg_ok).length),
       { info with
         done := (info.rest.take (min (lim - i)
           ((info.rest.takeWhile optC_arg_ok).length))).reverse
             ++ info.done,
         rest := info.rest.drop (min (lim - i)
           ((info.rest.takeWhile optC_arg_ok).length)) }) := by
  induction info, i using optC_args_loop.induct lim with
  | case1 info i hlt hget =>
    rw [optC_args_loop, if_pos hlt]
    split
    · rcases info with ⟨d, rst, f, e, ec, pc⟩
      cases hr : rst with
      | nil => subst hr; simp
      | cons s r => rw [show arg_get ⟨d, rst, f, e, ec, pc⟩
          = arg_get ⟨d, s :: r, f, e, ec, pc⟩ from by rw [hr]] at hget
                    simp [arg_get] at hget
    · rename_i a info' heq
      rw [hget] at heq
      cases heq
  | case2 info i hlt a info' hget hvalid ih =>
    rw [optC_args_loop, if_pos hlt]
    split
    · rename_i heq
      rw [hget] at heq
      cases heq
    · rename_i a2 info2 heq
      rw [hget] at heq
      cases heq
      rw [if_pos hvalid, ih]
      rcases info with ⟨d, rst, f, e, ec, pc⟩
      cases hr : rst with
      | nil =>
        rw [show arg_get ⟨d, rst, f, e, ec, pc⟩
          = arg_get ⟨d, [], f, e, ec, pc⟩ from by rw [hr]] at hget
        simp [arg_get] at hget
      | cons s r =>
        subst hr
        simp only [arg_get, Option.some.injEq, Prod.mk.injEq] at hget
        obtain ⟨ha, hinfo⟩ := hget
        subst ha
        subst hinfo
        have hq : optC_arg_ok s = true := by
          simpa [optC_arg_ok] using hvalid
        have htw : (s :: r).takeWhile optC_arg_ok
            = s :: r.takeWhile optC_arg_ok := by
          simp [List.takeWhile_cons, hq]
        rw [htw]
        have hmin : min (lim - i) ((r.takeWhile optC_arg_ok).length + 1)
            = min (lim - (i + 1)) ((r.takeWhile optC_arg_ok).length)
              + 1 := by
          simp only [Nat.min_def]
          split_ifs <;> omega
        simp only [List.length_cons, hmin]
        simp only [List.take_succ_cons, List.drop_succ_cons,
          List.reverse_cons, List.append_assoc, List.cons_append,
          List.nil_append, Prod.mk.injEq]
        refine ⟨by omega, ?_⟩
        simp
  | case3 info i hlt a info' hget hvalid =>
    rw [optC_args_loop, if_pos hlt]
    split
    · rename_i heq
      rw [hget] at heq
      cases heq
    · rename_i a2 info2 heq
      rw [hget] at heq
      cases heq
      rw [if_neg hvalid]
      rcases info with ⟨d, rst, f, e, ec, pc⟩
      cases hr : rst with
      | nil =>
        rw [show arg_get ⟨d, rst, f, e, ec, pc⟩
          = arg_get ⟨d, [], f, e, ec, pc⟩ from by rw [hr]] at hget
        simp [arg_get] at hget
      | cons s r =>
        subst hr
        simp only [arg_get, Option.some.injEq, Prod.mk.injEq] at hget
        obtain ⟨ha, hinfo⟩ := hget
        subst ha
        subst hinfo
        have hq : optC_arg_ok s = false := by
          simpa [optC_arg_ok] using hvalid
        simp [arg_unget, List.takeWhile_cons, hq]
  | case4 info i hlt =>
    rw [optC_args_loop, if_neg hlt]
    have h0 : lim - i = 0 := by omega
    simp [h0]

/-- Characterization of the `opt.h` consumption loop: starting at counter
`i` with bound `lim`, it accepts `min (lim - i) k` further tokens, where
`k` is the length of the longest qualifying prefix of the remaining
vector, and the cursor advances over exactly the accepted tokens. -/
theorem opt_args_loop_spec (tbl : opttbl) (lim : Nat) (info : optinfo)
    (i : Nat) :
    opt_args_loop tbl lim info i =
      (i + min (lim - i) ((info.rest.takeWhile (opt_arg_ok info tbl)).length),
       { info with
         done := (info.rest.take (min (lim - i)
           ((info.rest.takeWhile (opt_arg_ok info tbl)).length))).reverse
             ++ info.done,
         rest := info.rest.drop (min (lim - i)
           ((info.rest.takeWhile (opt_arg_ok info tbl)).length)) }) := by
  induction info, i using opt_args_loop.induct tbl lim with
  | case1 info i hlt hget =>
    rw [opt_args_loop, if_pos hlt]
    split
    · rcases info with ⟨d, rst, f, e, ec, pc⟩
      cases hr : rst with
      | nil => subst hr; simp
      | cons s r => rw [show arg_get ⟨d, rst, f, e, ec, pc⟩
          = arg_get ⟨d, s :: r, f, e, ec, pc⟩ from by rw [hr]] at hget
                    simp [arg_get] at hget
    · rename_i a info' heq
      rw [hget] at heq
      cases heq
  | case2 info i hlt a info' hget hvalid ih =>
    rw [opt_args_loop, if_pos hlt]
    split
    · rename_i heq
      rw [hget] at heq
      cases heq
    · rename_i a2 info2 heq
      rw [hget] at heq
      cases heq
      rw [if_pos hvalid, ih]
      rcases info with ⟨d, rst, f, e, ec, pc⟩
      cases hr : rst with
      | nil =>
        rw [show arg_get ⟨d, rst, f, e, ec, pc⟩
          = arg_get ⟨d, [], f, e, ec, pc⟩ from by rw [hr]] at hget
        simp [arg_get] at hget
      | cons s r =>
        subst hr
        simp only [arg_get, Option.some.injEq, Prod.mk.injEq] at hget
        obtain ⟨ha, hinfo⟩ := hget
        subst ha
        subst hinfo
        have hq : opt_arg_ok ⟨d, s :: r, f, e, ec, pc⟩ tbl s = true := hvalid
        rw [show (opt_arg_ok (⟨s :: d, r, f, e, ec, pc⟩ : optinfo) tbl)
          = (opt_arg_ok (⟨d, s :: r, f, e, ec, pc⟩ : optinfo) tbl) from rfl]
        have htw : (s :: r).takeWhile
            (opt_arg_ok (⟨d, s :: r, f, e, ec, pc⟩ : optinfo) tbl)
            = s :: r.takeWhile
              (opt_arg_ok (⟨d, s :: r, f, e, ec, pc⟩ : optinfo) tbl) := by
          simp [List.takeWhile_cons, hq]
        rw [htw]
        have hmin : min (lim - i) ((r.takeWhile
            (opt_arg_ok (⟨d, s :: r, f, e, ec, pc⟩ : optinfo) tbl)).length + 1)
            = min (lim - (i + 1)) ((r.takeWhile
            (opt_arg_ok (⟨d, s :: r, f, e, ec, pc⟩ : optinfo) tbl)).length)
              + 1 := by
          simp only [Nat.min_def]
          split_ifs <;> omega
        simp only [List.length_cons, hmin]
        simp only [List.take_succ_cons, List.drop_succ_cons,
          List.reverse_cons, List.append_assoc, List.cons_append,
          List.nil_append, Prod.mk.injEq]
        refine ⟨by omega, ?_⟩
        simp
  | case3 info i hlt a info' hget hvalid =>
    rw [opt_args_loop, if_pos hlt]
    split
    · rename_i heq
      rw [hget] at heq
      cases heq
    · rename_i a2 info2 heq
      rw [hget] at heq
      cases heq
      rw [if_neg hvalid]
      rcases info with ⟨d, rst, f, e, ec, pc⟩
      cases hr : rst with
      | nil =>
        rw [show arg_get ⟨d, rst, f, e, ec, pc⟩
          = arg_get ⟨d, [], f, e, ec, pc⟩ from by rw [hr]] at hget
        simp [arg_get] at hget
      | cons s r =>
        subst hr
        simp only [arg_get, Option.some.injEq, Prod.mk.injEq] at hget
        obtain ⟨ha, hinfo⟩ := hget
        subst ha
        subst hinfo
        have hq : opt_arg_ok ⟨d, s :: r, f, e, ec, pc⟩ tbl s = false := by
          simpa using hvalid
        simp [arg_unget, List.takeWhile_cons, hq]
  | case4 info i hlt =>
    rw [opt_args_loop, if_neg hlt]
    have h0 : lim - i = 0 := by omega
    simp [h0]

theorem chrcmp_eq_iff (a b : Nat) : chrcmp a b = .eq ↔ a = b := by
  unfold chrcmp
  split_ifs <;> simp_all <;> omega

theorem chrcmp_lt_iff (a b : Nat) : chrcmp a b = .lt ↔ a < b := by
  unfold chrcmp
  split_ifs <;> simp_all

theorem chrcmp_gt_iff (a b : Nat) : chrcmp a b = .gt ↔ b < a := by
  unfold chrcmp
  split_ifs <;> simp_all <;> omega

theorem char_toNat_inj {a b : Char} (h : a.toNat = b.toNat) : a = b :=
  Char.eq_of_val_eq (UInt32.ext h)

theorem strcmp_eq_iff (a b : Str) : strcmp a b = .eq ↔ a = b := by
  induction a generalizing b with
  | nil => cases b <;> simp [strcmp]
  | cons x xs ih =>
    cases b with
    | nil => simp [strcmp]
    | cons y ys =>
      unfold strcmp
      split_ifs with h1 h2
      · simp only [List.cons.injEq]
        constructor
        · intro h; cases h
        · rintro ⟨h, -⟩
          subst h
          omega
      · simp only [List.cons.injEq]
        constructor
        · intro h; cases h
        · rintro ⟨h, -⟩
          subst h
          omega
      · have hxy : x = y := char_toNat_inj (by omega)
        subst hxy
        simp [ih]

theorem strcmp_gt_iff (a b : Str) : strcmp a b = .gt ↔ strcmp b a = .lt := by
  induction a generalizing b with
  | nil => cases b <;> simp [strcmp]
  | cons x xs ih =>
    cases b with
    | nil => simp [strcmp]
    | cons y ys =>
      unfold strcmp
      split_ifs with h1 h2 <;> simp_all <;> omega

theorem strcmp_lt_trans {a b c : Str} (h1 : strcmp a b = .lt)
    (h2 : strcmp b c = .lt) : strcmp a c = .lt := by
  induction a generalizing b c with
  | nil =>
    cases b with
    | nil => simp [strcmp] at h1
    | cons y ys =>
      cases c with
      | nil => simp [strcmp] at h2
      | cons z zs => simp [strcmp]
  | cons x xs ih =>
    cases b with
    | nil => simp [strcmp] at h1
    | cons y ys =>
      cases c with
      | nil => simp [strcmp] at h2
      | cons z zs =>
        unfold strcmp at h1 h2 ⊢
        by_cases hxy : x.toNat < y.toNat
        · by_cases hyz : y.toNat < z.toNat
          · rw [if_pos (Nat.lt_trans hxy hyz)]
          · by_cases hzy : z.toNat < y.toNat
            · rw [if_neg hyz, if_pos hzy] at h2
              cases h2
            · have hzeq : y = z := char_toNat_inj (by omega)
              subst hzeq
              rw [if_pos hxy]
        · by_cases hyx : y.toNat < x.toNat
          · rw [if_neg hxy, if_pos hyx] at h1
            cases h1
          · have hxeq : x = y := char_toNat_inj (by omega)
            subst hxeq
            rw [if_neg hxy, if_neg hyx] at h1
            by_cases hyz : x.toNat < z.toNat
            · rw [if_pos hyz]
            · by_cases hzy : z.toNat < x.toNat
              · rw [if_neg hyz, if_pos hzy] at h2
                cases h2
              · rw [if_neg hyz, if_neg hzy] at h2 ⊢
                exact ih h1 h2

/-- `strcmp`'s `≤` (not-greater) relation is transitive. -/
theorem strcmp_le_trans {a b c : Str} (h1 : strcmp a b ≠ .gt)
    (h2 : strcmp b c ≠ .gt) : strcmp a c ≠ .gt := by
  rcases ho1 : strcmp a b with h | h | h
  · rcases ho2 : strcmp b c with g | g | g
    · intro hc
      rw [strcmp_gt_iff] at hc
      have h3 := strcmp_lt_trans (strcmp_lt_trans ho1 ho2) hc
      have h4 : strcmp a a = .eq := (strcmp_eq_iff a a).mpr rfl
      rw [h4] at h3
      cases h3
    · have hbc := (strcmp_eq_iff b c).mp ho2
      subst hbc
      simp [ho1]
    · exact absurd ho2 h2
  · have hab := (strcmp_eq_iff a b).mp ho1
    subst hab
    exact h2
  · exact absurd ho1 h1

/-- `strcmp`'s not-greater relation is total. -/
theorem strcmp_le_total (a b : Str) :
    strcmp a b ≠ .gt ∨ strcmp b a ≠ .gt := by
  rcases ho : strcmp a b with h | h | h
  · left; simp
  · left; simp
  · right
    rw [strcmp_gt_iff] at ho
    simp [ho]

theorem opt_bsearch_sound (cmp : Nat → Ordering) (buf : List Nat) (i : Nat)
    (h : opt_bsearch cmp buf = some i) : i ∈ buf ∧ cmp i = .eq := by
  induction buf using opt_bsearch.induct cmp with
  | case1 buf hlen =>
    rw [opt_bsearch, dif_pos hlen] at h
    cases h
  | case2 buf hlen x hx =>
    rw [opt_bsearch, dif_neg hlen] at h
    have hx' : cmp (buf.getD (buf.length / 2) 0) = .eq := hx
    simp only [hx'] at h
    cases h
    have hm : buf.length / 2 < buf.length := by omega
    constructor
    · rw [List.getD_eq_getElem buf 0 hm]
      exact List.getElem_mem hm
    · exact hx'
  | case3 buf hlen x hx ih =>
    rw [opt_bsearch, dif_neg hlen] at h
    have hx' : cmp (buf.getD (buf.length / 2) 0) = .lt := hx
    simp only [hx'] at h
    obtain ⟨hmem, hcmp⟩ := ih h
    exact ⟨(List.take_sublist _ _).mem hmem, hcmp⟩
  | case4 buf hlen x hx ih =>
    rw [opt_bsearch, dif_neg hlen] at h
    have hx' : cmp (buf.getD (buf.length / 2) 0) = .gt := hx
    simp only [hx'] at h
    obtain ⟨hmem, hcmp⟩ := ih h
    exact ⟨(List.drop_sublist _ _).mem hmem, hcmp⟩

theorem opt_bsearch_complete (cmp : Nat → Ordering) (le : Nat → Nat → Prop)
    (hcl : ∀ a b, le a b → cmp a = .lt → cmp b = .lt)
    (hcg : ∀ a b, le a b → cmp b = .gt → cmp a = .gt)
    (buf : List Nat) (hs : buf.Pairwise le) (j : Nat) (hj : j ∈ buf)
    (hkey : cmp j = .eq) : ∃ i, opt_bsearch cmp buf = some i := by
  induction buf using opt_bsearch.induct cmp with
  | case1 buf hlen =>
    rw [List.length_eq_zero] at hlen
    subst hlen
    cases hj
  | case2 buf hlen x hx =>
    have hx' : cmp (buf.getD (buf.length / 2) 0) = .eq := hx
    refine ⟨buf.getD (buf.length / 2) 0, ?_⟩
    rw [opt_bsearch, dif_neg hlen]
    simp only [hx']
  | case3 buf hlen x hx ih =>
    have hm : buf.length / 2 < buf.length := by omega
    have hx' : cmp (buf.getD (buf.length / 2) 0) = .lt := hx
    rw [List.getD_eq_getElem buf 0 hm] at hx'
    have hsplit : buf = buf.take (buf.length / 2 + 1)
        ++ buf.drop (buf.length / 2 + 1) :=
      (List.take_append_drop _ _).symm
    have hmid : buf.take (buf.length / 2 + 1)
        = buf.take (buf.length / 2) ++ [buf[buf.length / 2]] := by
      rw [List.take_succ]
      rw [List.getElem?_eq_getElem hm]
      rfl
    have hmemtake : buf[buf.length / 2] ∈ buf.take (buf.length / 2 + 1) := by
      rw [hmid]
      exact List.mem_append.mpr (Or.inr (List.mem_singleton.mpr rfl))
    have hpw := hs
    rw [hsplit, List.pairwise_append] at hpw
    have hj2 := hj
    rw [hsplit] at hj2
    have hjtake : j ∈ buf.take (buf.length / 2) := by
      rcases List.mem_append.mp hj2 with hin | hin
      · rw [hmid] at hin
        rcases List.mem_append.mp hin with hin2 | hin2
        · exact hin2
        · rw [List.mem_singleton] at hin2
          subst hin2
          rw [hx'] at hkey
          cases hkey
      · exfalso
        have hle : le buf[buf.length / 2] j :=
          hpw.2.2 buf[buf.length / 2] hmemtake j hin
        have hcon := hcl _ _ hle hx'
        rw [hkey] at hcon
        cases hcon
    have hs' : (buf.take (buf.length / 2)).Pairwise le :=
      hs.sublist (List.take_sublist _ _)
    obtain ⟨i, hi⟩ := ih hs' hjtake
    refine ⟨i, ?_⟩
    rw [opt_bsearch, dif_neg hlen]
    have hx2 : cmp (buf.getD (buf.length / 2) 0) = .lt := hx
    simp only [hx2]
    exact hi
  | case4 buf hlen x hx ih =>
    have hm : buf.length / 2 < buf.length := by omega
    have hx' : cmp (buf.getD (buf.length / 2) 0) = .gt := hx
    rw [List.getD_eq_getElem buf 0 hm] at hx'
    have hsplit : buf = buf.take (buf.length / 2)
        ++ buf.drop (buf.length / 2) :=
      (List.take_append_drop _ _).symm
    have hdropc : buf.drop (buf.length / 2)
        = buf[buf.length / 2] :: buf.drop (buf.length / 2 + 1) :=
      List.drop_eq_getElem_cons hm
    have hmemdrop : buf[buf.length / 2] ∈ buf.drop (buf.length / 2) := by
      rw [hdropc]
      exact List.mem_cons_self _ _
    have hpw := hs
    rw [hsplit, List.pairwise_append] at hpw
    have hj2 := hj
    rw [hsplit] at hj2
    have hjdrop : j ∈ buf.drop (buf.length / 2 + 1) := by
      rcases List.mem_append.mp hj2 with hin | hin
      · exfalso
        have hle : le j buf[buf.length / 2] :=
          hpw.2.2 j hin buf[buf.length / 2] hmemdrop
        have hcon := hcg _ _ hle hx'
        rw [hkey] at hcon
        cases hcon
      · rw [hdropc] at hin
        rcases List.mem_cons.mp hin with hin2 | hin2
        · subst hin2
          rw [hx'] at hkey
          cases hkey
        · exact hin2
    have hs' : (buf.drop (buf.length / 2 + 1)).Pairwise le :=
      hs.sublist (List.drop_sublist _ _)
    obtain ⟨i, hi⟩ := ih hs' hjdrop
    refine ⟨i, ?_⟩
    rw [opt_bsearch, dif_neg hlen]
    have hx2 : cmp (buf.getD (buf.length / 2) 0) = .gt := hx
    simp only [hx2]
    exact hi

theorem mem_build_shrt (nopt : Nat) (opts : List optspec) (i : Nat) :
    i ∈ (opt_build nopt opts).shrt ↔
      i < nopt ∧ shrt_usable opts i = true := by
  simp [opt_build, List.mem_filter, List.mem_range]

theorem mem_build_lng (nopt : Nat) (opts : List optspec) (i : Nat) :
    i ∈ (opt_build nopt opts).lng ↔
      i < nopt ∧ lng_usable opts i = true := by
  simp [opt_build, List.mem_filter, List.mem_range]

theorem sorted_build_shrt (nopt : Nat) (opts : List optspec) :
    ((opt_build nopt opts).shrt).Pairwise (shrt_le opts) := by
  haveI : IsTotal Nat (shrt_le opts) := ⟨by
    intro a b
    simp only [shrt_le, ne_eq, chrcmp_gt_iff]
    omega⟩
  haveI : IsTrans Nat (shrt_le opts) := ⟨by
    intro a b c hab hbc
    simp only [shrt_le, ne_eq, chrcmp_gt_iff] at hab hbc ⊢
    omega⟩
  exact List.sorted_insertionSort (shrt_le opts) _

theorem sorted_build_lng (nopt : Nat) (opts : List optspec) :
    ((opt_build nopt opts).lng).Pairwise (lng_le opts) := by
  haveI : IsTotal Nat (lng_le opts) := ⟨by
    intro a b
    exact strcmp_le_total _ _⟩
  haveI : IsTrans Nat (lng_le opts) := ⟨by
    intro a b c hab hbc
    exact strcmp_le_trans hab hbc⟩
  exact List.sorted_insertionSort (lng_le opts) _

theorem opt_find_shrt_some {nopt : Nat} {opts : List optspec}
    {key : optspec} {i : Nat}
    (h : opt_find (opt_build nopt opts) key false = some i) :
    i < nopt ∧ shrt_usable opts i = true ∧
      (opts.getD i default).shrt = key.shrt := by
  rw [opt_find, if_neg (by simp)] at h
  obtain ⟨hmem, hcmp⟩ := opt_bsearch_sound _ _ _ h
  rw [mem_build_shrt] at hmem
  rw [chrcmp_eq_iff] at hcmp
  exact ⟨hmem.1, hmem.2, (char_toNat_inj hcmp.symm)⟩

theorem opt_find_lng_some {nopt : Nat} {opts : List optspec}
    {key : optspec} {i : Nat}
    (h : opt_find (opt_build nopt opts) key true = some i) :
    i < nopt ∧ lng_usable opts i = true ∧
      ((opts.getD i default).lng).getD [] = key.lng.getD [] := by
  rw [opt_find, if_pos rfl] at h
  obtain ⟨hmem, hcmp⟩ := opt_bsearch_sound _ _ _ h
  rw [mem_build_lng] at hmem
  rw [strcmp_eq_iff] at hcmp
  exact ⟨hmem.1, hmem.2, hcmp.symm⟩

theorem opt_find_shrt_complete {nopt : Nat} {opts : List optspec}
    {key : optspec} (j : Nat) (hj : j < nopt)
    (hu : shrt_usable opts j = true)
    (hkey : (opts.getD j default).shrt = key.shrt) :
    ∃ i, opt_find (opt_build nopt opts) key false = some i := by
  rw [opt_find, if_neg (by simp)]
  simp only [show (opt_build nopt opts).opts = opts from rfl]
  refine opt_bsearch_complete _ (shrt_le opts) ?_ ?_ _
    (sorted_build_shrt nopt opts) j ((mem_build_shrt nopt opts j).mpr ⟨hj, hu⟩)
    ?_
  · intro a b hab hlt
    rw [chrcmp_lt_iff] at hlt ⊢
    simp only [shrt_le, ne_eq, chrcmp_gt_iff] at hab
    omega
  · intro a b hab hgt
    rw [chrcmp_gt_iff] at hgt ⊢
    simp only [shrt_le, ne_eq, chrcmp_gt_iff] at hab
    omega
  · rw [chrcmp_eq_iff, hkey]

theorem opt_find_lng_complete {nopt : Nat} {opts : List optspec}
    {key : optspec} (j : Nat) (hj : j < nopt)
    (hu : lng_usable opts j = true)
    (hkey : ((opts.getD j default).lng).getD [] = key.lng.getD []) :
    ∃ i, opt_find (opt_build nopt opts) key true = some i := by
  rw [opt_find, if_pos rfl]
  simp only [show (opt_build nopt opts).opts = opts from rfl]
  refine opt_bsearch_complete _ (lng_le opts) ?_ ?_ _
    (sorted_build_lng nopt opts) j ((mem_build_lng nopt opts j).mpr ⟨hj, hu⟩)
    ?_
  · intro a b hab hlt
    rcases ho : strcmp ((opts.getD a default).lng.getD [])
        ((opts.getD b default).lng.getD []) with h | h | h
    · exact strcmp_lt_trans hlt ho
    · rw [strcmp_eq_iff] at ho
      rw [← ho]
      exact hlt
    · exact absurd ho hab
  · intro a b hab hgt
    rw [strcmp_gt_iff] at hgt ⊢
    rcases ho : strcmp ((opts.getD a default).lng.getD [])
        ((opts.getD b default).lng.getD []) with h | h | h
    · exact strcmp_lt_trans ho hgt
    · rw [strcmp_eq_iff] at ho
      rw [ho]
      exact hgt
    · exact absurd ho hab
  · rw [strcmp_eq_iff, hkey]

theorem arg_classify_nil : arg_classify [] = .ARG_TOKEN := rfl

theorem arg_classify_one (a0 : Char) : arg_classify [a0] = .ARG_TOKEN := by
  rw [show arg_classify [a0]
    = if a0 = '-' then argtype.ARG_TOKEN else .ARG_TOKEN from rfl]
  split_ifs <;> rfl

theorem arg_classify_cons2 (a0 a1 : Char) (t : Str) :
    arg_classify (a0 :: a1 :: t)
      = if a0 = '-' then
          if a1 = '-' then
            (if t.isEmpty then argtype.ARG_END else .ARG_LONG)
          else .ARG_SHORT
        else .ARG_TOKEN := rfl

theorem arg_classify_short_shape {s : Str}
    (h : arg_classify s = .ARG_SHORT) : ∃ c t, s = '-' :: c :: t := by
  cases s with
  | nil => cases h
  | cons a0 rest0 =>
    cases rest0 with
    | nil =>
      rw [arg_classify_one] at h
      cases h
    | cons a1 rest1 =>
      rw [arg_classify_cons2] at h
      split_ifs at h with h0 h1 h2 <;> try cases h
      subst h0
      exact ⟨a1, rest1, rfl⟩

theorem arg_classify_long_shape {s : Str}
    (h : arg_classify s = .ARG_LONG) : ∃ t, s = '-' :: '-' :: t ∧ t ≠ [] := by
  cases s with
  | nil => cases h
  | cons a0 rest0 =>
    cases rest0 with
    | nil =>
      rw [arg_classify_one] at h
      cases h
    | cons a1 rest1 =>
      rw [arg_classify_cons2] at h
      split_ifs at h with h0 h1 h2 <;> try cases h
      subst h0
      subst h1
      refine ⟨rest1, rfl, ?_⟩
      simpa using h2

theorem opt_short_step_trace (info : optinfo) (tbl : opttbl)
    (noargs : Bool) (c : Char) :
    ∃ ev : event, (opt_short_step info tbl noargs c).2.1 = [ev] ∧
      ev.ret = (opt_short_step info tbl noargs c).1 := by
  rw [opt_short_step]
  cases opt_find tbl { (default : optspec) with shrt := c } false with
  | none => exact ⟨_, rfl, rfl⟩
  | some idx =>
    cases noargs with
    | true => exact ⟨_, rfl, rfl⟩
    | false =>
      simp only [Bool.false_eq_true, if_false, opt_call_back]
      exact ⟨_, rfl, rfl⟩

theorem opt_long_trace (info : optinfo) (tbl : opttbl) (opt : Str) :
    ∃ ev : event, (opt_long info tbl opt).2.1 = [ev] ∧
      ev.ret = (opt_long info tbl opt).1 := by
  rw [opt_long]
  cases opt_find tbl { (default : optspec) with lng := some opt } true with
  | none => exact ⟨_, rfl, rfl⟩
  | some idx =>
    simp only [opt_call_back]
    exact ⟨_, rfl, rfl⟩

theorem opt_short_go_traceOK (info : optinfo) (tbl : opttbl) (noargs : Bool)
    (c : Char) (rest : List Char) :
    (opt_short_go info tbl noargs c rest).2.1 ≠ [] ∧
    (∀ e ∈ (opt_short_go info tbl noargs c rest).2.1.dropLast, e.ret = 0) ∧
    ((opt_short_go info tbl noargs c rest).2.1.getLast?).map event.ret
      = some (opt_short_go info tbl noargs c rest).1 := by
  induction rest generalizing info c with
  | nil =>
    simp only [opt_short_go]
    obtain ⟨ev, h1, h2⟩ := opt_short_step_trace info tbl noargs c
    rw [h1]
    refine ⟨by simp, by simp, ?_⟩
    simp [h2]
  | cons c' rest' ih =>
    simp only [opt_short_go]
    split
    · obtain ⟨ev, h1, h2⟩ := opt_short_step_trace info tbl noargs c
      rw [h1]
      refine ⟨by simp, by simp, ?_⟩
      simp [h2]
    · rename_i hz
      rw [not_not] at hz
      obtain ⟨ev, h1, h2⟩ := opt_short_step_trace info tbl noargs c
      obtain ⟨ihne, ihdrop, ihlast⟩ :=
        ih (opt_short_step info tbl noargs c).2.2 c'
      rw [h1]
      refine ⟨by simp [ihne], ?_, ?_⟩
      · intro e he
        rw [List.dropLast_append_of_ne_nil _ ihne] at he
        rcases List.mem_append.mp he with hm | hm
        · rw [List.mem_singleton] at hm
          subst hm
          rw [h2, hz]
        · exact ihdrop e hm
      · rw [List.getLast?_append_of_ne_nil _ ihne]
        exact ihlast

theorem opt_short_traceOK (info : optinfo) (tbl : opttbl) (opt : Str)
    (hne : opt ≠ []) :
    (opt_short info tbl opt).2.1 ≠ [] ∧
    (∀ e ∈ (opt_short info tbl opt).2.1.dropLast, e.ret = 0) ∧
    ((opt_short info tbl opt).2.1.getLast?).map event.ret
      = some (opt_short info tbl opt).1 := by
  cases opt with
  | nil => exact absurd rfl hne
  | cons c rest =>
    rw [opt_short]
    exact opt_short_go_traceOK ..

theorem opt_read_loop_stop (info : optinfo) (tbl : opttbl) (res : Int)
    (h : res ≠ 0) :
    (opt_read_loop info tbl res).1 = res ∧
      (opt_read_loop info tbl res).2.1 = [] := by
  rw [opt_read_loop]
  split
  · exact ⟨rfl, rfl⟩
  · rw [if_pos h]
    exact ⟨rfl, rfl⟩

theorem arg_get_type {info : optinfo} {a : arg} {info' : optinfo}
    (h : arg_get info = some (a, info')) : a.type = arg_classify a.str := by
  cases info with
  | mk d rst f e ec pc =>
    cases rst with
    | nil => simp [arg_get] at h
    | cons s r =>
      simp only [arg_get, Option.some.injEq, Prod.mk.injEq] at h
      obtain ⟨h1, h2⟩ := h
      rw [← h1]

theorem opt_read_loop_traceOK (info : optinfo) (tbl : opttbl) (res : Int) :
    (∀ e ∈ (opt_read_loop info tbl res).2.1.dropLast, e.ret = 0) ∧
    (opt_read_loop info tbl res).1
      = (((opt_read_loop info tbl res).2.1.getLast?).map event.ret).getD
          res := by
  induction info, tbl, res using opt_read_loop.induct with
  | case1 info tbl res hget =>
    rw [opt_read_loop]
    split
    · exact ⟨by simp, by simp⟩
    · rename_i a2 info2 heq
      rw [hget] at heq
      cases heq
  | case2 info tbl res a info' hget hres =>
    rw [opt_read_loop]
    split
    · exact ⟨by simp, by simp⟩
    · rename_i a2 info2 heq
      rw [hget] at heq
      cases heq
      rw [if_pos hres]
      exact ⟨by simp, by simp⟩
  | case3 info tbl res a info' hget hres htype =>
    rw [opt_read_loop]
    split
    · rename_i heq
      rw [hget] at heq
      cases heq
    · rename_i a2 info2 heq
      rw [hget] at heq
      cases heq
      rw [if_neg hres]
      simp only [htype]
      exact ⟨by simp, by simp [event.ret]⟩
  | case4 info tbl res a info' hget hres htype =>
    rw [opt_read_loop]
    split
    · rename_i heq
      rw [hget] at heq
      cases heq
    · rename_i a2 info2 heq
      rw [hget] at heq
      cases heq
      rw [if_neg hres]
      simp only [htype]
      exact ⟨by simp, by simp [event.ret]⟩
  | case5 info tbl res a info' hget hres htype p ih =>
    rw [opt_read_loop]
    split
    · rename_i heq
      rw [hget] at heq
      cases heq
    · rename_i a2 info2 heq
      rw [hget] at heq
      cases heq
      rw [if_neg hres]
      simp only [htype]
      have hclass : arg_classify a.str = .ARG_SHORT := by
        rw [← arg_get_type hget]
        exact htype
      obtain ⟨c, t, hshape⟩ := arg_classify_short_shape hclass
      have hne : a.str.drop 1 ≠ [] := by
        rw [hshape]
        simp
      obtain ⟨hSne, hSdrop, hSlast⟩ :=
        opt_short_traceOK info' tbl (a.str.drop 1) hne
      have hp : p = opt_short info' tbl (a.str.drop 1) := rfl
      rw [hp] at ih
      obtain ⟨ihdrop, ihres⟩ := ih
      by_cases ht2 : (opt_read_loop
          (opt_short info' tbl (a.str.drop 1)).2.2 tbl
          (opt_short info' tbl (a.str.drop 1)).1).2.1 = []
      · constructor
        · intro e he
          rw [ht2, List.append_nil] at he
          exact hSdrop e he
        · rw [ht2, List.append_nil, ihres, ht2]
          simp only [List.getLast?_nil, Option.map_none', Option.getD_none]
          rw [hSlast]
          rfl
      · have hp0 : (opt_short info' tbl (a.str.drop 1)).1 = 0 := by
          by_contra hp
          exact ht2 (opt_read_loop_stop _ tbl _ hp).2
        have hallt1 : ∀ e ∈ (opt_short info' tbl (a.str.drop 1)).2.1,
            e.ret = 0 := by
          intro e he
          rw [← List.dropLast_append_getLast hSne] at he
          rcases List.mem_append.mp he with hm | hm
          · exact hSdrop e hm
          · rw [List.mem_singleton] at hm
            subst hm
            have hg := List.getLast?_eq_getLast _ hSne
            rw [hg] at hSlast
            simp only [Option.map_some', Option.some.injEq] at hSlast
            rw [hSlast, hp0]
        constructor
        · intro e he
          rw [List.dropLast_append_of_ne_nil _ ht2] at he
          rcases List.mem_append.mp he with hm | hm
          · exact hallt1 e hm
          · exact ihdrop e hm
        · rw [List.getLast?_append_of_ne_nil _ ht2, ihres]
          obtain ⟨y, hy⟩ := Option.isSome_iff_exists.mp
            (List.getLast?_isSome.mpr ht2)
          rw [hy]
          rfl
  | case6 info tbl res a info' hget hres htype p ih =>
    rw [opt_read_loop]
    split
    · rename_i heq
      rw [hget] at heq
      cases heq
    · rename_i a2 info2 heq
      rw [hget] at heq
      cases heq
      rw [if_neg hres]
      simp only [htype]
      obtain ⟨ev, hev1, hev2⟩ := opt_long_trace info' tbl (a.str.drop 2)
      have hp : p = opt_long info' tbl (a.str.drop 2) := rfl
      rw [hp] at ih
      obtain ⟨ihdrop, ihres⟩ := ih
      by_cases ht2 : (opt_read_loop
          (opt_long info' tbl (a.str.drop 2)).2.2 tbl
          (opt_long info' tbl (a.str.drop 2)).1).2.1 = []
      · constructor
        · intro e he
          rw [ht2, List.append_nil, hev1] at he
          simp at he
        · rw [ht2, List.append_nil, ihres, ht2, hev1]
          simp [hev2]
      · have hp0 : (opt_long info' tbl (a.str.drop 2)).1 = 0 := by
          by_contra hp
          exact ht2 (opt_read_loop_stop _ tbl _ hp).2
        constructor
        · intro e he
          rw [List.dropLast_append_of_ne_nil _ ht2] at he
          rcases List.mem_append.mp he with hm | hm
          · rw [hev1, List.mem_singleton] at hm
            subst hm
            rw [hev2, hp0]
          · exact ihdrop e hm
        · rw [List.getLast?_append_of_ne_nil _ ht2, ihres]
          obtain ⟨y, hy⟩ := Option.isSome_iff_exists.mp
            (List.getLast?_isSome.mpr ht2)
          rw [hy]
          rfl

/-- Replace the end-of-options disposition field, leaving the rest of the
context alone. -/
def setEnd (info : optinfo) (e : optend) : optinfo := { info with endact := e }

theorem setEnd_rest (info : optinfo) (e : optend) :
    (setEnd info e).rest = info.rest := rfl

theorem arg_get_setEnd (info : optinfo) (e : optend) :
    arg_get (setEnd info e)
      = (arg_get info).map (fun q => (q.1, setEnd q.2 e)) := by
  cases info with
  | mk d rst f en ec pc => cases rst <;> rfl

theorem arg_unget_setEnd (info : optinfo) (e : optend) :
    arg_unget (setEnd info e) = setEnd (arg_unget info) e := by
  cases info with
  | mk d rst f en ec pc => cases d <;> rfl

theorem opt_args_loop_setEnd (tbl : opttbl) (lim : Nat) (info : optinfo)
    (i : Nat) (e : optend) :
    opt_args_loop tbl lim (setEnd info e) i
      = ((opt_args_loop tbl lim info i).1,
         setEnd (opt_args_loop tbl lim info i).2 e) := by
  rw [opt_args_loop_spec, opt_args_loop_spec]
  rfl

theorem opt_call_back_setEnd (info : optinfo) (tbl : opttbl) (j : Nat)
    (e : optend) :
    opt_call_back (setEnd info e) tbl j
      = ((opt_call_back info tbl j).1, (opt_call_back info tbl j).2.1,
         setEnd (opt_call_back info tbl j).2.2 e) := by
  simp only [opt_call_back, opt_args_loop_setEnd, setEnd_rest]

theorem opt_short_step_setEnd (info : optinfo) (tbl : opttbl)
    (noargs : Bool) (c : Char) (e : optend) :
    opt_short_step (setEnd info e) tbl noargs c
      = ((opt_short_step info tbl noargs c).1,
         (opt_short_step info tbl noargs c).2.1,
         setEnd (opt_short_step info tbl noargs c).2.2 e) := by
  rw [opt_short_step, opt_short_step]
  cases opt_find tbl { (default : optspec) with shrt := c } false with
  | none => rfl
  | some idx =>
    cases noargs with
    | true => rfl
    | false =>
      simp only [Bool.false_eq_true, if_false]
      exact opt_call_back_setEnd ..

theorem opt_short_go_setEnd (info : optinfo) (tbl : opttbl) (noargs : Bool)
    (c : Char) (rest : List Char) (e : optend) :
    opt_short_go (setEnd info e) tbl noargs c rest
      = ((opt_short_go info tbl noargs c rest).1,
         (opt_short_go info tbl noargs c rest).2.1,
         setEnd (opt_short_go info tbl noargs c rest).2.2 e) := by
  induction rest generalizing info c with
  | nil =>
    simp only [opt_short_go]
    exact opt_short_step_setEnd ..
  | cons c' rest' ih =>
    simp only [opt_short_go, opt_short_step_setEnd]
    split
    · rfl
    · rw [ih]

theorem opt_short_setEnd (info : optinfo) (tbl : opttbl) (opt : Str)
    (e : optend) :
    opt_short (setEnd info e) tbl opt
      = ((opt_short info tbl opt).1, (opt_short info tbl opt).2.1,
         setEnd (opt_short info tbl opt).2.2 e) := by
  cases opt with
  | nil => rfl
  | cons c rest =>
    rw [opt_short, opt_short]
    exact opt_short_go_setEnd ..

theorem opt_long_setEnd (info : optinfo) (tbl : opttbl) (opt : Str)
    (e : optend) :
    opt_long (setEnd info e) tbl opt
      = ((opt_long info tbl opt).1, (opt_long info tbl opt).2.1,
         setEnd (opt_long info tbl opt).2.2 e) := by
  rw [opt_long, opt_long]
  cases opt_find tbl { (default : optspec) with lng := some opt } true with
  | none => rfl
  | some idx => exact opt_call_back_setEnd ..

theorem opt_read_loop_setEnd (info : optinfo) (tbl : opttbl) (res : Int)
    (e : optend) :
    opt_read_loop (setEnd info e) tbl res
      = ((opt_read_loop info tbl res).1, (opt_read_loop info tbl res).2.1,
         setEnd (opt_read_loop info tbl res).2.2 e) := by
  induction info, tbl, res using opt_read_loop.induct with
  | case1 info tbl res hget =>
    rw [opt_read_loop, opt_read_loop, arg_get_setEnd, hget]
    rfl
  | case2 info tbl res a info' hget hres =>
    rw [opt_read_loop, opt_read_loop, arg_get_setEnd, hget]
    simp only [Option.map_some']
    rw [if_pos hres, if_pos hres]
  | case3 info tbl res a info' hget hres htype =>
    rw [opt_read_loop, opt_read_loop, arg_get_setEnd, hget]
    simp only [Option.map_some']
    rw [if_neg hres, if_neg hres]
    simp only [htype, arg_unget_setEnd]
    rfl
  | case4 info tbl res a info' hget hres htype =>
    rw [opt_read_loop, opt_read_loop, arg_get_setEnd, hget]
    simp only [Option.map_some']
    rw [if_neg hres, if_neg hres]
    simp only [htype]
    rfl
  | case5 info tbl res a info' hget hres htype p ih =>
    rw [opt_read_loop, opt_read_loop, arg_get_setEnd, hget]
    simp only [Option.map_some']
    rw [if_neg hres, if_neg hres]
    simp only [htype]
    have hp : p = opt_short info' tbl (a.str.drop 1) := rfl
    rw [hp] at ih
    simp only [opt_short_setEnd, ih]
  | case6 info tbl res a info' hget hres htype p ih =>
    rw [opt_read_loop, opt_read_loop, arg_get_setEnd, hget]
    simp only [Option.map_some']
    rw [if_neg hres, if_neg hres]
    simp only [htype]
    have hp : p = opt_long info' tbl (a.str.drop 2) := rfl
    rw [hp] at ih
    simp only [opt_long_setEnd, ih]

theorem opt_read_setEnd (info : optinfo) (tbl : opttbl) (e : optend) :
    opt_read (setEnd info e) tbl
      = ((opt_read info tbl).1, (opt_read info tbl).2.1,
         setEnd (opt_read info tbl).2.2 e) := by
  rw [opt_read, opt_read]
  exact opt_read_loop_setEnd ..

theorem opt_first_setEnd (info : optinfo) (e : optend) :
    opt_first (setEnd info e)
      = ((opt_first info).1, setEnd (opt_first info).2 e) := by
  cases info with
  | mk d rst f en ec pc =>
    cases f with
    | OPT_FIRST_PARSE => rfl
    | OPT_FIRST_SKIP => cases rst <;> rfl

theorem opt_parse_setEnd (info : optinfo) (nopt : Nat)
    (opts : List optspec) (e : optend) :
    opt_parse (setEnd info e) nopt opts
      = ((opt_parse info nopt opts).1, (opt_parse info nopt opts).2.1,
         setEnd (opt_parse info nopt opts).2.2 e) := by
  rw [opt_parse, opt_parse]
  simp only [opt_first_setEnd]
  split
  · rfl
  · exact opt_read_setEnd ..

theorem arg_get_of_rest {info : optinfo} {t : Str} {r' : List Str}
    (hrest : info.rest = t :: r') :
    arg_get info = some ({ str := t, type := arg_classify t },
      { info with done := t :: info.done, rest := r' }) := by
  cases info with
  | mk d rst f en ec pc =>
    simp only at hrest
    subst hrest
    rfl

/-- The terminal END transition of the parse loop: the `"--"`-classified
token is consumed (not part of the positional slice) and the positional
callback is invoked with index `-1` on the rest. -/
theorem opt_read_end_step (info : optinfo) (tbl : opttbl) (t : Str)
    (r' : List Str) (hrest : info.rest = t :: r')
    (hclass : arg_classify t = .ARG_END) :
    opt_read info tbl
      = (info.poscb (-1) r'.length r',
         [event.pos (-1) r'.length r' (info.poscb (-1) r'.length r')],
         { info with done := t :: info.done, rest := r' }) := by
  rw [opt_read, opt_read_loop]
  split
  · rename_i heq
    rw [arg_get_of_rest hrest] at heq
    cases heq
  · rename_i a2 info2 heq
    rw [arg_get_of_rest hrest] at heq
    cases heq
    rw [if_neg (by simp)]
    simp only [hclass]

/-- The terminal PLAIN transition of the parse loop: the plain token is
put back, so the positional callback sees it at the head of the remaining
slice. -/
theorem opt_read_token_step (info : optinfo) (tbl : opttbl) (t : Str)
    (r' : List Str) (hrest : info.rest = t :: r')
    (hclass : arg_classify t = .ARG_TOKEN) :
    opt_read info tbl
      = (info.poscb (-1) info.rest.length info.rest,
         [event.pos (-1) info.rest.length info.rest
           (info.poscb (-1) info.rest.length info.rest)],
         info) := by
  rw [opt_read, opt_read_loop]
  split
  · rename_i heq
    rw [arg_get_of_rest hrest] at heq
    cases heq
  · rename_i a2 info2 heq
    rw [arg_get_of_rest hrest] at heq
    cases heq
    rw [if_neg (by simp)]
    simp only [hclass]
    rw [arg_get_unget (arg_get_of_rest hrest)]

theorem takeWhile_len_mono {α : Type} (p q : α → Bool)
    (h : ∀ a, p a = true → q a = true) (l : List α) :
    (l.takeWhile p).length ≤ (l.takeWhile q).length := by
  induction l with
  | nil => simp
  | cons x xs ih =>
    cases hp : p x with
    | false => simp [List.takeWhile_cons, hp]
    | true =>
      simp only [List.takeWhile_cons, hp, h x hp, if_true, List.length_cons]
      exact Nat.succ_le_succ ih

theorem mem_take_of_le_takeWhile {α : Type} (p : α → Bool) (l : List α)
    (n : Nat) (h : n ≤ (l.takeWhile p).length) :
    ∀ x ∈ l.take n, p x = true := by
  induction l generalizing n with
  | nil => simp
  | cons y ys ih =>
    cases n with
    | zero => simp
    | succ m =>
      cases hp : p y with
      | false =>
        rw [List.takeWhile_cons, hp] at h
        simp at h
      | true =>
        rw [List.takeWhile_cons, hp] at h
        simp only [if_true, List.length_cons, Nat.succ_le_succ_iff] at h
        intro x hx
        rw [List.take_succ_cons] at hx
        rcases List.mem_cons.mp hx with hx2 | hx2
        · subst hx2
          exact hp
        · exact ih m h x hx2

theorem le_takeWhile_of_take {α : Type} (p : α → Bool) (l : List α)
    (n : Nat) (hn : n ≤ l.length) (h : ∀ x ∈ l.take n, p x = true) :
    n ≤ (l.takeWhile p).length := by
  induction l generalizing n with
  | nil => simpa using hn
  | cons y ys ih =>
    cases n with
    | zero => simp
    | succ m =>
      have hy : p y = true := h y (by simp [List.take_succ_cons])
      rw [List.takeWhile_cons, hy]
      simp only [if_true, List.length_cons, Nat.succ_le_succ_iff]
      refine ih m (by simpa using hn) ?_
      intro x hx
      exact h x (by rw [List.take_succ_cons]; exact List.mem_cons_of_mem _ hx)

theorem take_eq_take_takeWhile {α : Type} (p : α → Bool) (l : List α)
    (n : Nat) (h : n ≤ (l.takeWhile p).length) :
    l.take n = (l.takeWhile p).take n := by
  induction l generalizing n with
  | nil => simp
  | cons y ys ih =>
    cases n with
    | zero => simp
    | succ m =>
      cases hp : p y with
      | false =>
        rw [List.takeWhile_cons, hp] at h
        simp at h
      | true =>
        rw [List.takeWhile_cons, hp] at h ⊢
        simp only [if_true, List.length_cons, Nat.succ_le_succ_iff] at h
        simp only [if_true, List.take_succ_cons]
        rw [ih m h]

theorem takeWhile_congr_mem {α : Type} (p q : α → Bool) (l : List α)
    (h : ∀ x ∈ l, p x = q x) : l.takeWhile p = l.takeWhile q := by
  induction l with
  | nil => rfl
  | cons y ys ih =>
    have hy : p y = q y := h y (List.mem_cons_self _ _)
    rw [List.takeWhile_cons, List.takeWhile_cons, ← hy]
    cases hp : p y with
    | false => rfl
    | true =>
      simp only [if_true]
      rw [ih fun x hx => h x (List.mem_cons_of_mem _ hx)]

/-- Where the two acceptance policies agree: on any token that is not a
SHORT-classified token whose first character after the dash is a decimal
digit, the `opt.h` test and the `opt.c` test coincide. -/
theorem opt_arg_ok_eq_optC {info : optinfo} {tbl : opttbl} {s : Str}
    (h : ¬(arg_classify s = .ARG_SHORT
      ∧ isdigit (s.getD 1 default) = true)) :
    opt_arg_ok info tbl s = optC_arg_ok s := by
  unfold opt_arg_ok optC_arg_ok opt_valid_argument
  simp only
  cases hc : arg_classify s with
  | ARG_TOKEN => simp
  | ARG_SHORT =>
    have hd : isdigit (s.getD 1 default) = false := by
      rcases hdd : isdigit (s.getD 1 default) with h2 | h2
      · rfl
      · exact absurd ⟨hc, hdd⟩ h
    have hd2 : isdigit (s[1]?.getD 'A') = false := by
      rw [← List.getD_eq_getElem?_getD]
      exact hd
    simp [hd2]
  | ARG_END => simp
  | ARG_LONG => simp

theorem opt_first_res (info : optinfo) : (opt_first info).1 = 0 := by
  cases info with
  | mk d rst f en ec pc =>
    cases f with
    | OPT_FIRST_PARSE => rfl
    | OPT_FIRST_SKIP => cases rst <;> rfl

theorem opt_short_go_trace_len (info : optinfo) (tbl : opttbl)
    (noargs : Bool) (c : Char) (rest : List Char) :
    (opt_short_go info tbl noargs c rest).2.1.length ≤ rest.length + 1 := by
  induction rest generalizing info c with
  | nil =>
    simp only [opt_short_go]
    obtain ⟨ev, h1, h2⟩ := opt_short_step_trace info tbl noargs c
    simp [h1]
  | cons c' rest' ih =>
    simp only [opt_short_go]
    obtain ⟨ev, h1, h2⟩ := opt_short_step_trace info tbl noargs c
    split
    · simp [h1]
    · rw [h1]
      simp only [List.length_append, List.length_cons, List.length_nil]
      have := ih (opt_short_step info tbl noargs c).2.2 c'
      omega

theorem optC_imp_opt_arg_ok (info : optinfo) (tbl : opttbl) (s : Str)
    (h : optC_arg_ok s = true) : opt_arg_ok info tbl s = true := by
  unfold optC_arg_ok at h
  rw [decide_eq_true_iff] at h
  unfold opt_arg_ok opt_valid_argument
  simp only [h]

/-- During a bundled (multi-character) cluster scan every recognized
character's callback is invoked directly with zero consumed arguments and
the cursor untouched; with all involved callbacks returning zero the scan
emits exactly one event per cluster character, in order. -/
theorem opt_short_go_all_zero (nopt : Nat) (opts : List optspec)
    (info : optinfo)
    (hfun : ∀ i, i < nopt →
      (opts.getD i default).func (i : Int) 0 info.rest = 0)
    (herr : ∀ c : Char, info.errcb 0 c none = 0) :
    ∀ (c : Char) (rest : List Char),
      opt_short_go info (opt_build nopt opts) true c rest
        = (0, (c :: rest).map (fun ch =>
            match opt_find (opt_build nopt opts)
                { (default : optspec) with shrt := ch } false with
            | some idx => event.opt (idx : Int) 0 info.rest 0
            | none => event.err 0 ch none 0), info) := by
  have hstep : ∀ ch : Char, opt_short_step info (opt_build nopt opts) true ch
      = (0, [match opt_find (opt_build nopt opts)
              { (default : optspec) with shrt := ch } false with
            | some idx => event.opt (idx : Int) 0 info.rest 0
            | none => event.err 0 ch none 0], info) := by
    intro ch
    rw [opt_short_step]
    cases hf : opt_find (opt_build nopt opts)
        { (default : optspec) with shrt := ch } false with
    | none =>
      simp only [herr ch]
    | some idx =>
      have hlt : idx < nopt := (opt_find_shrt_some hf).1
      have h0 := hfun idx hlt
      simp [show (opt_build nopt opts).opts = opts from rfl, h0]
      rw [← List.getD_eq_getElem?_getD]
      exact h0
  intro c rest
  induction rest generalizing c with
  | nil =>
    simp only [opt_short_go, hstep c]
    rfl
  | cons c' rest' ih =>
    have h10 : (opt_short_step info (opt_build nopt opts) true c).1 = 0 := by
      rw [hstep c]
    have h22 : (opt_short_step info (opt_build nopt opts) true c).2.2
        = info := by
      rw [hstep c]
    have h21 : (opt_short_step info (opt_build nopt opts) true c).2.1
        = [match opt_find (opt_build nopt opts)
              { (default : optspec) with shrt := c } false with
          | some idx => event.opt (idx : Int) 0 info.rest 0
          | none => event.err 0 c none 0] := by
      rw [hstep c]
    simp only [opt_short_go]
    rw [h10, h22, ih c', h21]
    simp

/-- **C4**: the Classifier `arg_classify` is a pure total function over all
strings (it is a Lean function `Str → argtype`) and satisfies:
`classify("") = PLAIN`, `classify("-") = PLAIN`, `classify("--") = END`,
`classify("--x") = LONG` (the matched name being everything after the two
dashes, which the parse loop extracts as `arg.str + 2`),
`classify("-x") = SHORT` (the matched cluster being everything after the
dash, extracted as `arg.str + 1`), and any token not starting with `'-'`
is PLAIN. -/
theorem C4_classifier_total :
    arg_classify [] = .ARG_TOKEN
    ∧ arg_classify ['-'] = .ARG_TOKEN
    ∧ arg_classify ['-', '-'] = .ARG_END
    ∧ (∀ s : Str, s ≠ [] → arg_classify ('-' :: '-' :: s) = .ARG_LONG)
    ∧ (∀ (c : Char) (s : Str), c ≠ '-' →
        arg_classify ('-' :: c :: s) = .ARG_SHORT)
    ∧ (∀ (c : Char) (s : Str), c ≠ '-' →
        arg_classify (c :: s) = .ARG_TOKEN) := by
  refine ⟨rfl, by decide, by decide, ?_, ?_, ?_⟩
  · intro s hs
    rw [arg_classify_cons2]
    simp [List.isEmpty_iff, hs]
  · intro c s hc
    rw [arg_classify_cons2]
    simp [hc]
  · intro c s hc
    cases s with
    | nil => exact arg_classify_one c
    | cons c2 s2 =>
      rw [arg_classify_cons2]
      simp [hc]

theorem C4_classifier_total_witness :
    arg_classify ['-', '-', 'x'] = .ARG_LONG
    ∧ arg_classify ['-', 'x'] = .ARG_SHORT
    ∧ arg_classify ['f', 'o', 'o'] = .ARG_TOKEN :=
  ⟨C4_classifier_total.2.2.2.1 ['x'] (by decide),
   C4_classifier_total.2.2.2.2.1 'x' [] (by decide),
   C4_classifier_total.2.2.2.2.2 'f' ['o', 'o'] (by decide)⟩

/-- **C2**: for every argument vector and option table, the first callback
invocation that returns a nonzero value is the last invocation the engine
performs (every invocation except the final one returned zero), and the
top-level parse result is exactly the final invocation's return value —
or zero when the vector is exhausted with no invocation at all.  This
captures both the short-circuit (a nonzero return stops all further
dispatch, its value returned unchanged) and the neutral-zero result on
exhaustion. -/
theorem C2_termination_short_circuit (info : optinfo) (nopt : Nat)
    (opts : List optspec) :
    (∀ e ∈ (opt_parse info nopt opts).2.1.dropLast, e.ret = 0)
    ∧ (opt_parse info nopt opts).1
        = (((opt_parse info nopt opts).2.1.getLast?).map event.ret).getD
            0 := by
  rw [opt_parse]
  have h0 : (opt_first info).1 = 0 := opt_first_res info
  rw [if_neg (by simp [h0])]
  rw [opt_read]
  exact opt_read_loop_traceOK (opt_first info).2 (opt_build nopt opts) 0

/-- **C3**: the end-of-options disposition field `endact` is never read by
the parse loop: for either value of the field the result, the callback
trace and the final cursor coincide.  Moreover the terminal transition is:
an END token (`"--"`) is consumed and never passed to any callback — the
positional callback receives index `-1` and exactly the tokens after it —
while a PLAIN token is put back, so the positional callback receives index
`-1` and a slice starting with that token; in both cases the positional
callback's return value is the parse-loop result. -/
theorem C3_end_disposition (info : optinfo) (tbl : opttbl) :
    (∀ e1 e2 : optend,
      (opt_read (setEnd info e1) tbl).1 = (opt_read (setEnd info e2) tbl).1
      ∧ (opt_read (setEnd info e1) tbl).2.1
          = (opt_read (setEnd info e2) tbl).2.1
      ∧ (opt_read (setEnd info e1) tbl).2.2.rest
          = (opt_read (setEnd info e2) tbl).2.2.rest)
    ∧ (∀ (t : Str) (r' : List Str), info.rest = t :: r' →
        arg_classify t = .ARG_END →
        opt_read info tbl
          = (info.poscb (-1) r'.length r',
             [event.pos (-1) r'.length r' (info.poscb (-1) r'.length r')],
             { info with done := t :: info.done, rest := r' }))
    ∧ (∀ (t : Str) (r' : List Str), info.rest = t :: r' →
        arg_classify t = .ARG_TOKEN →
        opt_read info tbl
          = (info.poscb (-1) info.rest.length info.rest,
             [event.pos (-1) info.rest.length info.rest
               (info.poscb (-1) info.rest.length info.rest)],
             info)) := by
  refine ⟨?_, opt_read_end_step info tbl, opt_read_token_step info tbl⟩
  intro e1 e2
  rw [opt_read_setEnd info tbl e1, opt_read_setEnd info tbl e2]
  exact ⟨rfl, rfl, rfl⟩

theorem C3_end_disposition_witness :
    (opt_read
      { done := [], rest := [['-', '-'], ['f', 'o', 'o']],
        fstact := .OPT_FIRST_PARSE, endact := .OPT_END_DISALLOW,
        errcb := fun _ _ _ => 0, poscb := fun _ _ _ => 7 }
      (opt_build 0 [])).2.1
      = [event.pos (-1) 1 [['f', 'o', 'o']] 7]
    ∧ (opt_read
      { done := [], rest := [['b', 'a', 'r']],
        fstact := .OPT_FIRST_PARSE, endact := .OPT_END_ALLOW,
        errcb := fun _ _ _ => 0, poscb := fun _ _ _ => 7 }
      (opt_build 0 [])).2.1
      = [event.pos (-1) 1 [['b', 'a', 'r']] 7] := by
  constructor
  · have h := (C3_end_disposition
      { done := [], rest := [['-', '-'], ['f', 'o', 'o']],
        fstact := .OPT_FIRST_PARSE, endact := .OPT_END_DISALLOW,
        errcb := fun _ _ _ => 0, poscb := fun _ _ _ => 7 }
      (opt_build 0 [])).2.1 ['-', '-'] [['f', 'o', 'o']] rfl (by decide)
    rw [h]
    rfl
  · have h := (C3_end_disposition
      { done := [], rest := [['b', 'a', 'r']],
        fstact := .OPT_FIRST_PARSE, endact := .OPT_END_ALLOW,
        errcb := fun _ _ _ => 0, poscb := fun _ _ _ => 7 }
      (opt_build 0 [])).2.2 ['b', 'a', 'r'] [] rfl (by decide)
    rw [h]
    rfl

/-- **C1**: for a matched option spec declaring `args = N ≥ 0` (within the
C `int` range) and any cursor state, the dispatcher `opt_call_back` takes
consecutive qualifying tokens up to `N` — the accepted count is
`min N k` with `k` the longest qualifying prefix of the remainder — puts
the first non-qualifying token back (the cursor advances over exactly the
accepted tokens), and invokes the option's callback once with that count
and the argument pointer, whose first `count` entries are exactly the
accepted tokens; under-fill on exhaustion is silent (the single recorded
invocation is the option callback, never an error callback). -/
theorem C1_dispatcher_argument_capping (info : optinfo) (tbl : opttbl)
    (jobIdx : Nat) (N : Nat)
    (hargs : (tbl.opts.getD jobIdx default).args = (N : Int))
    (hN : N < 2 ^ 31) :
    opt_call_back info tbl jobIdx
      = ((tbl.opts.getD jobIdx default).func (jobIdx : Int)
           (min N ((info.rest.takeWhile (opt_arg_ok info tbl)).length))
           info.rest,
         [event.opt (jobIdx : Int)
           (min N ((info.rest.takeWhile (opt_arg_ok info tbl)).length))
           info.rest
           ((tbl.opts.getD jobIdx default).func (jobIdx : Int)
             (min N ((info.rest.takeWhile (opt_arg_ok info tbl)).length))
             info.rest)],
         { info with
           done := (info.rest.take (min N ((info.rest.takeWhile
             (opt_arg_ok info tbl)).length))).reverse ++ info.done,
           rest := info.rest.drop (min N ((info.rest.takeWhile
             (opt_arg_ok info tbl)).length)) })
    ∧ info.rest.take
        (min N ((info.rest.takeWhile (opt_arg_ok info tbl)).length))
        = (info.rest.takeWhile (opt_arg_ok info tbl)).take N := by
  have hlim : opt_lim (tbl.opts.getD jobIdx default).args = N := by
    rw [hargs]
    unfold opt_lim
    have h1 : ((N : Int)) % 2 ^ 32 = (N : Int) := by omega
    rw [h1]
    exact Int.toNat_natCast N
  constructor
  · simp only [opt_call_back, hlim, opt_args_loop_spec, Nat.sub_zero,
      Nat.zero_add]
  · have hc : min N ((info.rest.takeWhile (opt_arg_ok info tbl)).length)
        ≤ (info.rest.takeWhile (opt_arg_ok info tbl)).length :=
      Nat.min_le_right ..
    rw [take_eq_take_takeWhile _ _ _ hc, List.take_eq_take]
    have htw : ((info.rest.takeWhile (opt_arg_ok info tbl)).length)
        ≤ info.rest.length := (info.rest.takeWhile_sublist _).length_le
    simp only [Nat.min_def]
    split_ifs <;> omega

theorem C1_dispatcher_argument_capping_witness :
    (opt_call_back
      { done := [], rest := [['5'], ['6'], ['7']],
        fstact := .OPT_FIRST_PARSE, endact := .OPT_END_ALLOW,
        errcb := fun _ _ _ => 0, poscb := fun _ _ _ => 0 }
      (opt_build 1
        [{ shrt := 'n', lng := none, args := 2, func := fun _ _ _ => 0 }])
      0).2.1
      = [event.opt 0 2 [['5'], ['6'], ['7']] 0]
    ∧ (opt_call_back
      { done := [], rest := [['5'], ['6'], ['7']],
        fstact := .OPT_FIRST_PARSE, endact := .OPT_END_ALLOW,
        errcb := fun _ _ _ => 0, poscb := fun _ _ _ => 0 }
      (opt_build 1
        [{ shrt := 'n', lng := none, args := 2, func := fun _ _ _ => 0 }])
      0).2.2.rest = [['7']] := by
  have h := C1_dispatcher_argument_capping
    { done := [], rest := [['5'], ['6'], ['7']],
      fstact := .OPT_FIRST_PARSE, endact := .OPT_END_ALLOW,
      errcb := fun _ _ _ => 0, poscb := fun _ _ _ => 0 }
    (opt_build 1
      [{ shrt := 'n', lng := none, args := 2, func := fun _ _ _ => 0 }])
    0 2 (by decide) (by decide)
  constructor
  · rw [h.1]
    decide
  · rw [h.1]
    decide

/-- **C10**: the declared argument limit is a signed `int` converted to
`unsigned` before the consumption loop (`opt_lim`), so the documented
"unbounded" encoding `args = -1` yields the loop bound `2^32 - 1`;
moreover every negative `args` value in the `int` range behaves in the
same effectively-unbounded way: on any vector shorter than `2^31` tokens
(an `int` `argc` cannot exceed that) consumption stops only on vector
exhaustion or at the first non-qualifying token — the accepted count is
the full qualifying-prefix length, uncapped. -/
theorem C10_negative_args_unbounded :
    opt_lim (-1) = 2 ^ 32 - 1
    ∧ (∀ (info : optinfo) (tbl : opttbl) (jobIdx : Nat),
        -(2 ^ 31) ≤ (tbl.opts.getD jobIdx default).args →
        (tbl.opts.getD jobIdx default).args < 0 →
        info.rest.length < 2 ^ 31 →
        opt_call_back info tbl jobIdx
          = ((tbl.opts.getD jobIdx default).func (jobIdx : Int)
               ((info.rest.takeWhile (opt_arg_ok info tbl)).length)
               info.rest,
             [event.opt (jobIdx : Int)
               ((info.rest.takeWhile (opt_arg_ok info tbl)).length)
               info.rest
               ((tbl.opts.getD jobIdx default).func (jobIdx : Int)
                 ((info.rest.takeWhile (opt_arg_ok info tbl)).length)
                 info.rest)],
             { info with
               done := (info.rest.take ((info.rest.takeWhile
                 (opt_arg_ok info tbl)).length)).reverse ++ info.done,
               rest := info.rest.drop ((info.rest.takeWhile
                 (opt_arg_ok info tbl)).length) })) := by
  constructor
  · decide
  · intro info tbl jobIdx h1 h2 h3
    have hge : 2 ^ 31 ≤ opt_lim (tbl.opts.getD jobIdx default).args := by
      unfold opt_lim
      omega
    have htw : ((info.rest.takeWhile (opt_arg_ok info tbl)).length)
        ≤ info.rest.length := (info.rest.takeWhile_sublist _).length_le
    have hmin : min (opt_lim (tbl.opts.getD jobIdx default).args)
        ((info.rest.takeWhile (opt_arg_ok info tbl)).length)
        = (info.rest.takeWhile (opt_arg_ok info tbl)).length := by
      simp only [Nat.min_def]
      split_ifs <;> omega
    simp only [opt_call_back, opt_args_loop_spec, Nat.sub_zero,
      Nat.zero_add, hmin]

theorem C10_negative_args_unbounded_witness :
    (opt_call_back
      { done := [], rest := [['5'], ['6'], ['-', 'x'], ['7']],
        fstact := .OPT_FIRST_PARSE, endact := .OPT_END_ALLOW,
        errcb := fun _ _ _ => 0, poscb := fun _ _ _ => 0 }
      (opt_build 1
        [{ shrt := 'v', lng := none, args := -1, func := fun _ _ _ => 0 }])
      0).2.1
      = [event.opt 0 2 [['5'], ['6'], ['-', 'x'], ['7']] 0]
    ∧ (opt_call_back
      { done := [], rest := [['5'], ['6'], ['-', 'x'], ['7']],
        fstact := .OPT_FIRST_PARSE, endact := .OPT_END_ALLOW,
        errcb := fun _ _ _ => 0, poscb := fun _ _ _ => 0 }
      (opt_build 1
        [{ shrt := 'v', lng := none, args := -1, func := fun _ _ _ => 0 }])
      0).2.2.rest
      = [['-', 'x'], ['7']] := by
  have h := C10_negative_args_unbounded.2
    { done := [], rest := [['5'], ['6'], ['-', 'x'], ['7']],
      fstact := .OPT_FIRST_PARSE, endact := .OPT_END_ALLOW,
      errcb := fun _ _ _ => 0, poscb := fun _ _ _ => 0 }
    (opt_build 1
      [{ shrt := 'v', lng := none, args := -1, func := fun _ _ _ => 0 }])
    0 (by decide) (by decide) (by decide)
  constructor
  · rw [h]
    decide
  · rw [h]
    decide

/-- **C5**: for an option table whose usable short characters are pairwise
distinct and whose usable long names are pairwise distinct, `opt_find`
after the build (filter then sort) returns exactly the declaring table
slot for every declared usable short character and long name, and
not-found for any character or name no usable spec declares. -/
theorem C5_find_after_build (opts : List optspec)
    (hdisS : ∀ i, i < opts.length → ∀ j, j < opts.length →
      shrt_usable opts i = true → shrt_usable opts j = true →
      (opts.getD i default).shrt = (opts.getD j default).shrt → i = j)
    (hdisL : ∀ i, i < opts.length → ∀ j, j < opts.length →
      lng_usable opts i = true → lng_usable opts j = true →
      (opts.getD i default).lng.getD [] = (opts.getD j default).lng.getD []
        → i = j) :
    (∀ (i : Nat) (key : optspec), i < opts.length →
      shrt_usable opts i = true →
      key.shrt = (opts.getD i default).shrt →
      opt_find (opt_build opts.length opts) key false = some i)
    ∧ (∀ key : optspec,
        (∀ i, i < opts.length → shrt_usable opts i = true →
          (opts.getD i default).shrt ≠ key.shrt) →
        opt_find (opt_build opts.length opts) key false = none)
    ∧ (∀ (i : Nat) (key : optspec), i < opts.length →
        lng_usable opts i = true →
        key.lng.getD [] = (opts.getD i default).lng.getD [] →
        opt_find (opt_build opts.length opts) key true = some i)
    ∧ (∀ key : optspec,
        (∀ i, i < opts.length → lng_usable opts i = true →
          (opts.getD i default).lng.getD [] ≠ key.lng.getD []) →
        opt_find (opt_build opts.length opts) key true = none) := by
  refine ⟨?_, ?_, ?_, ?_⟩
  · intro i key hi hu hkey
    obtain ⟨j, hj⟩ := opt_find_shrt_complete i hi hu hkey.symm
    obtain ⟨hjlt, hju, hjkey⟩ := opt_find_shrt_some hj
    have : j = i := hdisS j hjlt i hi hju hu (by rw [hjkey, hkey])
    rw [← this]
    exact hj
  · intro key hnone
    cases hf : opt_find (opt_build opts.length opts) key false with
    | none => rfl
    | some i =>
      obtain ⟨hlt, hu, hkey⟩ := opt_find_shrt_some hf
      exact absurd hkey (hnone i hlt hu)
  · intro i key hi hu hkey
    obtain ⟨j, hj⟩ := opt_find_lng_complete i hi hu hkey.symm
    obtain ⟨hjlt, hju, hjkey⟩ := opt_find_lng_some hj
    have : j = i := hdisL j hjlt i hi hju hu (by rw [hjkey, hkey])
    rw [← this]
    exact hj
  · intro key hnone
    cases hf : opt_find (opt_build opts.length opts) key true with
    | none => rfl
    | some i =>
      obtain ⟨hlt, hu, hkey⟩ := opt_find_lng_some hf
      exact absurd hkey (hnone i hlt hu)

theorem C5_find_after_build_witness :
    opt_find (opt_build 2
      [{ shrt := 'a', lng := some ['a', 'l'], args := 0,
         func := fun _ _ _ => 0 },
       { shrt := 'b', lng := none, args := 0, func := fun _ _ _ => 0 }])
      { (default : optspec) with shrt := 'b' } false = some 1
    ∧ opt_find (opt_build 2
      [{ shrt := 'a', lng := some ['a', 'l'], args := 0,
         func := fun _ _ _ => 0 },
       { shrt := 'b', lng := none, args := 0, func := fun _ _ _ => 0 }])
      { (default : optspec) with shrt := 'z' } false = none
    ∧ opt_find (opt_build 2
      [{ shrt := 'a', lng := some ['a', 'l'], args := 0,
         func := fun _ _ _ => 0 },
       { shrt := 'b', lng := none, args := 0, func := fun _ _ _ => 0 }])
      { (default : optspec) with lng := some ['a', 'l'] } true = some 0 := by
  have h := C5_find_after_build
    [{ shrt := 'a', lng := some ['a', 'l'], args := 0,
       func := fun _ _ _ => 0 },
     { shrt := 'b', lng := none, args := 0, func := fun _ _ _ => 0 }]
    (by decide) (by decide)
  exact ⟨h.1 1 _ (by decide) (by decide) (by decide),
         h.2.1 _ (by decide),
         h.2.2.1 0 _ (by decide) (by decide) (by decide)⟩

/-- **C8**: the Option Index build includes a spec in the short-lookup
buffer iff its short character is printable and non-whitespace
(`isgraph`), and in the long-lookup buffer iff its long name is non-NULL
and non-empty; a spec in neither buffer can never be returned by any
lookup on the built index. -/
theorem C8_index_filters (nopt : Nat) (opts : List optspec) :
    (∀ i, i ∈ (opt_build nopt opts).shrt
      ↔ i < nopt ∧ isgraph (opts.getD i default).shrt = true)
    ∧ (∀ i, i ∈ (opt_build nopt opts).lng
      ↔ i < nopt ∧ ∃ l, (opts.getD i default).lng = some l ∧ l ≠ [])
    ∧ (∀ i, shrt_usable opts i = false → lng_usable opts i = false →
        ∀ (key : optspec) (len : Bool),
          opt_find (opt_build nopt opts) key len ≠ some i) := by
  refine ⟨?_, ?_, ?_⟩
  · intro i
    rw [mem_build_shrt]
    unfold shrt_usable
    exact Iff.rfl
  · intro i
    rw [mem_build_lng]
    unfold lng_usable
    cases hl : (opts.getD i default).lng with
    | none => simp [hl]
    | some l =>
      simp only [hl, Bool.not_eq_true', Option.some.injEq]
      constructor
      · rintro ⟨h1, h2⟩
        refine ⟨h1, l, rfl, ?_⟩
        intro hnil
        subst hnil
        simp at h2
      · rintro ⟨h1, l2, hl2, hne⟩
        subst hl2
        refine ⟨h1, ?_⟩
        cases l <;> simp_all
  · intro i hs hl key len hfound
    cases len with
    | false =>
      obtain ⟨-, hu, -⟩ := opt_find_shrt_some hfound
      rw [hs] at hu
      cases hu
    | true =>
      obtain ⟨-, hu, -⟩ := opt_find_lng_some hfound
      rw [hl] at hu
      cases hu

/-- A sample spec with neither a usable short form (`' '` fails
`isgraph`) nor a usable long form (empty string). -/
def c8spec : optspec :=
  { shrt := ' ', lng := some [], args := 0, func := fun _ _ _ => 0 }

theorem C8_index_filters_witness :
    shrt_usable [c8spec] 0 = false
    ∧ lng_usable [c8spec] 0 = false
    ∧ opt_find (opt_build 1 [c8spec]) default false ≠ some 0
    ∧ opt_find (opt_build 1 [c8spec]) default true ≠ some 0 := by
  refine ⟨by decide, by decide, ?_, ?_⟩
  · exact (C8_index_filters 1 [c8spec]).2.2 0 (by decide) (by decide)
      default false
  · exact (C8_index_filters 1 [c8spec]).2.2 0 (by decide) (by decide)
      default true

/-- **C6**: the `opt.h` acceptance test accepts exactly PLAIN tokens plus
SHORT tokens whose first post-dash character is a decimal digit, while the
`opt.c` variant accepts PLAIN tokens only; consequently the two
consumption loops produce identical counts and cursors on any remaining
vector containing no SHORT-with-digit token, and their counts coincide
precisely when every token the `opt.h` loop accepted is PLAIN — i.e. they
differ exactly when a SHORT-with-digit candidate was consumed. -/
theorem C6_negative_number_refinement :
    (∀ (info : optinfo) (tbl : opttbl) (a : arg),
      opt_valid_argument info tbl a
        = (a.type == argtype.ARG_TOKEN
            || (a.type == argtype.ARG_SHORT
              && isdigit (a.str.getD 1 default))))
    ∧ (∀ (lim : Nat) (info : optinfo) (tbl : opttbl) (i : Nat),
        (∀ t ∈ info.rest, ¬(arg_classify t = .ARG_SHORT
          ∧ isdigit (t.getD 1 default) = true)) →
        optC_args_loop lim info i = opt_args_loop tbl lim info i)
    ∧ (∀ (lim : Nat) (info : optinfo) (tbl : opttbl),
        (optC_args_loop lim info 0).1 = (opt_args_loop tbl lim info 0).1
          ↔ ∀ t ∈ info.rest.take ((opt_args_loop tbl lim info 0).1),
              arg_classify t = .ARG_TOKEN) := by
  refine ⟨?_, ?_, ?_⟩
  · intro info tbl a
    unfold opt_valid_argument
    cases a.type <;> simp
  · intro lim info tbl i h
    rw [optC_args_loop_spec, opt_args_loop_spec]
    have htw : info.rest.takeWhile optC_arg_ok
        = info.rest.takeWhile (opt_arg_ok info tbl) :=
      takeWhile_congr_mem _ _ _
        (fun x hx => (opt_arg_ok_eq_optC (h x hx)).symm)
    rw [htw]
  · intro lim info tbl
    rw [optC_args_loop_spec, opt_args_loop_spec]
    simp only [Nat.sub_zero, Nat.zero_add]
    have hmono : (info.rest.takeWhile optC_arg_ok).length
        ≤ (info.rest.takeWhile (opt_arg_ok info tbl)).length :=
      takeWhile_len_mono _ _ (fun a ha => optC_imp_opt_arg_ok info tbl a ha)
        _
    have hlen : (info.rest.takeWhile (opt_arg_ok info tbl)).length
        ≤ info.rest.length := (info.rest.takeWhile_sublist _).length_le
    constructor
    · intro hEq t ht
      have hle : min lim
          ((info.rest.takeWhile (opt_arg_ok info tbl)).length)
          ≤ (info.rest.takeWhile optC_arg_ok).length := by
        rw [← hEq]
        exact Nat.min_le_right _ _
      have hq := mem_take_of_le_takeWhile optC_arg_ok info.rest _ hle t ht
      unfold optC_arg_ok at hq
      exact of_decide_eq_true hq
    · intro hAll
      have h1 : min lim
          ((info.rest.takeWhile (opt_arg_ok info tbl)).length)
          ≤ (info.rest.takeWhile optC_arg_ok).length := by
        apply le_takeWhile_of_take optC_arg_ok info.rest _
          (le_trans (Nat.min_le_right _ _) hlen)
        intro x hx
        unfold optC_arg_ok
        exact decide_eq_true (hAll x hx)
      have h2 : min lim
            ((info.rest.takeWhile (opt_arg_ok info tbl)).length)
          ≤ min lim ((info.rest.takeWhile optC_arg_ok).length) :=
        Nat.le_min.mpr ⟨Nat.min_le_left _ _, h1⟩
      have h3 : min lim ((info.rest.takeWhile optC_arg_ok).length)
          ≤ min lim
            ((info.rest.takeWhile (opt_arg_ok info tbl)).length) :=
        Nat.le_min.mpr ⟨Nat.min_le_left _ _,
          le_trans (Nat.min_le_right _ _) hmono⟩
      exact Nat.le_antisymm h3 h2

theorem C6_negative_number_refinement_witness :
    optC_args_loop 3
      { done := [], rest := [['5'], ['x'], ['7']],
        fstact := .OPT_FIRST_PARSE, endact := .OPT_END_ALLOW,
        errcb := fun _ _ _ => 0, poscb := fun _ _ _ => 0 } 0
      = opt_args_loop (opt_build 0 []) 3
        { done := [], rest := [['5'], ['x'], ['7']],
          fstact := .OPT_FIRST_PARSE, endact := .OPT_END_ALLOW,
          errcb := fun _ _ _ => 0, poscb := fun _ _ _ => 0 } 0 :=
  C6_negative_number_refinement.2.1 3
    { done := [], rest := [['5'], ['x'], ['7']],
      fstact := .OPT_FIRST_PARSE, endact := .OPT_END_ALLOW,
      errcb := fun _ _ _ => 0, poscb := fun _ _ _ => 0 }
    (opt_build 0 []) 0 (by decide)

/-- **C7**: when a SHORT token holds more than one character after the
dash, the cluster is scanned left-to-right and each recognized character's
callback is invoked directly with zero consumed arguments (and the
argument pointer at the untouched cursor, so the count-0 view is empty)
regardless of its declared `args`; with all involved callbacks returning
zero the scan emits exactly one invocation per character, in cluster
order, and leaves the cursor unchanged.  Argument consumption runs only
when the short option is the sole character of its token, in which case
the lookup dispatches through `opt_call_back`. -/
theorem C7_bundled_short_options (nopt : Nat) (opts : List optspec)
    (info : optinfo) (c1 c2 : Char) (rest : List Char)
    (hfun : ∀ i, i < nopt →
      (opts.getD i default).func (i : Int) 0 info.rest = 0)
    (herr : ∀ c : Char, info.errcb 0 c none = 0) :
    opt_short info (opt_build nopt opts) (c1 :: c2 :: rest)
      = (0, (c1 :: c2 :: rest).map (fun ch =>
          match opt_find (opt_build nopt opts)
              { (default : optspec) with shrt := ch } false with
          | some idx => event.opt (idx : Int) 0 info.rest 0
          | none => event.err 0 ch none 0), info)
    ∧ (∀ (c : Char) (idx : Nat),
        opt_find (opt_build nopt opts)
            { (default : optspec) with shrt := c } false = some idx →
        opt_short info (opt_build nopt opts) [c]
          = opt_call_back info (opt_build nopt opts) idx) := by
  constructor
  · rw [opt_short]
    have hna : (!(c2 :: rest).isEmpty) = true := by simp
    rw [hna]
    exact opt_short_go_all_zero nopt opts info hfun herr c1 (c2 :: rest)
  · intro c idx hf
    rw [opt_short]
    simp [opt_short_go, opt_short_step, hf]

/-- Two zero-argument specs used by the bundled-cluster witness. -/
def c7specs : List optspec :=
  [{ shrt := 'a', lng := none, args := 0, func := fun _ _ _ => 0 },
   { shrt := 'b', lng := none, args := 0, func := fun _ _ _ => 0 }]

theorem C7_bundled_short_options_witness :
    (opt_short
      { done := [['-', 'a', 'b']], rest := [],
        fstact := .OPT_FIRST_PARSE, endact := .OPT_END_ALLOW,
        errcb := fun _ _ _ => 0, poscb := fun _ _ _ => 0 }
      (opt_build 2 c7specs) ['a', 'b']).2.1
      = [event.opt 0 0 [] 0, event.opt 1 0 [] 0]
    ∧ (opt_short
      { done := [['-', 'a', 'b']], rest := [],
        fstact := .OPT_FIRST_PARSE, endact := .OPT_END_ALLOW,
        errcb := fun _ _ _ => 0, poscb := fun _ _ _ => 0 }
      (opt_build 2 c7specs) ['a', 'b']).2.2.rest = [] := by
  have h := (C7_bundled_short_options 2 c7specs
    { done := [['-', 'a', 'b']], rest := [],
      fstact := .OPT_FIRST_PARSE, endact := .OPT_END_ALLOW,
      errcb := fun _ _ _ => 0, poscb := fun _ _ _ => 0 }
    'a' 'b' [] (by decide) (fun c => rfl)).1
  have hfa : opt_find (opt_build 2 c7specs)
      { (default : optspec) with shrt := 'a' } false = some 0 := by
    obtain ⟨j, hj⟩ := @opt_find_shrt_complete 2 c7specs
      { (default : optspec) with shrt := 'a' } 0
      (by decide) (by decide) (by decide)
    obtain ⟨hlt, hu, hkey⟩ := opt_find_shrt_some hj
    rcases j with _ | _ | j
    · exact hj
    · exfalso
      revert hkey
      decide
    · exact absurd hlt (by omega)
  have hfb : opt_find (opt_build 2 c7specs)
      { (default : optspec) with shrt := 'b' } false = some 1 := by
    obtain ⟨j, hj⟩ := @opt_find_shrt_complete 2 c7specs
      { (default : optspec) with shrt := 'b' } 1
      (by decide) (by decide) (by decide)
    obtain ⟨hlt, hu, hkey⟩ := opt_find_shrt_some hj
    rcases j with _ | _ | j
    · exfalso
      revert hkey
      decide
    · exact hj
    · exact absurd hlt (by omega)
  constructor
  · rw [h]
    simp only [List.map_cons, List.map_nil]
    rw [hfa, hfb]
    rfl
  · rw [h]

/-- **C9**: the parse loop terminates because its measure — the remaining
token count — never grows in any sub-step and strictly decreases across
every non-terminal iteration: the dispatcher's consumption loop, a short
cluster scan and a long lookup never lengthen the remaining vector (every
put-back is preceded by a take), so after the option token itself is
consumed an iteration nets at least one token; and a short-cluster scan
performs at most one callback invocation per cluster character. -/
theorem C9_parse_terminates :
    (∀ (tbl : opttbl) (lim : Nat) (info : optinfo) (i : Nat),
      (opt_args_loop tbl lim info i).2.rest.length ≤ info.rest.length)
    ∧ (∀ (info : optinfo) (tbl : opttbl) (opt : Str),
        (opt_short info tbl opt).2.2.rest.length ≤ info.rest.length)
    ∧ (∀ (info : optinfo) (tbl : opttbl) (opt : Str),
        (opt_long info tbl opt).2.2.rest.length ≤ info.rest.length)
    ∧ (∀ (info : optinfo) (tbl : opttbl) (t : Str) (r' : List Str),
        info.rest = t :: r' →
        (opt_short { info with done := t :: info.done, rest := r' } tbl
            (t.drop 1)).2.2.rest.length < info.rest.length
        ∧ (opt_long { info with done := t :: info.done, rest := r' } tbl
            (t.drop 2)).2.2.rest.length < info.rest.length)
    ∧ (∀ (info : optinfo) (tbl : opttbl) (noargs : Bool) (c : Char)
        (rest : List Char),
        (opt_short_go info tbl noargs c rest).2.1.length
          ≤ rest.length + 1) := by
  refine ⟨opt_args_loop_rest_le, opt_short_rest_le, opt_long_rest_le,
    ?_, opt_short_go_trace_len⟩
  intro info tbl t r' hrest
  constructor
  · have h : (opt_short { info with done := t :: info.done, rest := r' }
        tbl (t.drop 1)).2.2.rest.length ≤ r'.length := opt_short_rest_le
      { info with done := t :: info.done, rest := r' } tbl (t.drop 1)
    rw [hrest]
    simp only [List.length_cons]
    omega
  · have h : (opt_long { info with done := t :: info.done, rest := r' }
        tbl (t.drop 2)).2.2.rest.length ≤ r'.length := opt_long_rest_le
      { info with done := t :: info.done, rest := r' } tbl (t.drop 2)
    rw [hrest]
    simp only [List.length_cons]
    omega

theorem C9_parse_terminates_witness :
    (opt_short
      { done := [['-', 'a']], rest := [['x']],
        fstact := .OPT_FIRST_PARSE, endact := .OPT_END_ALLOW,
        errcb := fun _ _ _ => 0, poscb := fun _ _ _ => 0 }
      (opt_build 2 c7specs)
      (['-', 'a'].drop 1)).2.2.rest.length < 2 := by
  have h := (C9_parse_terminates.2.2.2.1
    { done := [], rest := [['-', 'a'], ['x']],
      fstact := .OPT_FIRST_PARSE, endact := .OPT_END_ALLOW,
      errcb := fun _ _ _ => 0, poscb := fun _ _ _ => 0 }
    (opt_build 2 c7specs) ['-', 'a'] [['x']] rfl).1
  exact h
